import Mathlib

/-!
Verification of the lease accounting and garbage-collection core of the
`daira/tahoe-lafs` storage server (files `src/allmydata/storage/leasedb.py`
and `src/allmydata/storage/expiration.py`).

The database state (sqlite tables `shares`, `leases`, `accounts`,
`crawler_history`) is embedded as lists of rows; each method of `LeaseDB`
and `AccountingCrawler.process_prefixdir` becomes a pure function from the
state (plus explicit clock/backend inputs) to the new state, paired with an
optional error modelling a raised Python exception.  Python byte strings are
embedded as `List Nat` (lists of byte values; in Python 2, `str` is a byte
string).  Timestamps are integers (`Int`): the sqlite columns store integers
and every comparison in the sources is on those values.
-/

/-! ## Base-32 rendering of storage indexes

`si_b2a` / `si_a2b` live in `allmydata/storage/common.py` and
`allmydata/util/base32.py`, which are not among the sources under
verification; they are modelled from the spec below. -/

def bitsOfByte (b : Nat) : List Nat :=
  [b / 128 % 2, b / 64 % 2, b / 32 % 2, b / 16 % 2, b / 8 % 2, b / 4 % 2, b / 2 % 2, b % 2]

def bitsOfBytes (bs : List Nat) : List Nat :=
  (bs.map bitsOfByte).flatten

def padBitsTo5 (bits : List Nat) : List Nat :=
  bits ++ List.replicate ((5 - bits.length % 5) % 5) 0

def quintetsOfBits : List Nat → List Nat
  | b1 :: b2 :: b3 :: b4 :: b5 :: rest =>
      (b1 * 16 + b2 * 8 + b3 * 4 + b4 * 2 + b5) :: quintetsOfBits rest
  | _ => []

/-- Byte value of the base-32 digit with index `i` (lower-case RFC 3548
alphabet: letters `a`..`z` then digits `2`..`7`). -/
def b32char (i : Nat) : Nat :=
  if i < 26 then 97 + i else 24 + i

/-- Index of the base-32 digit with byte value `c`. -/
def b32index (c : Nat) : Nat :=
  if 97 ≤ c then c - 97 else c - 24

/-- Modelled from the spec: `si_b2a` renders a byte string in base-32
(5 bits per output character, most significant bit first, no padding
characters); a 16-byte storage index is rendered as a 26-character string.
The argument and result are byte strings (`List Nat`). -/
def si_b2a (os : List Nat) : List Nat :=
  (quintetsOfBits (padBitsTo5 (bitsOfBytes os))).map b32char

def bitsOfQuintet (q : Nat) : List Nat :=
  [q / 16 % 2, q / 8 % 2, q / 4 % 2, q / 2 % 2, q % 2]

def octetsOfBits : List Nat → List Nat
  | b1 :: b2 :: b3 :: b4 :: b5 :: b6 :: b7 :: b8 :: rest =>
      (b1 * 128 + b2 * 64 + b3 * 32 + b4 * 16 + b5 * 8 + b6 * 4 + b7 * 2 + b8)
        :: octetsOfBits rest
  | _ => []

/-- Modelled from the spec: `si_a2b` decodes a base-32 string back to the
byte string it renders (trailing bits beyond a whole byte are discarded). -/
def si_a2b (cs : List Nat) : List Nat :=
  octetsOfBits ((cs.map b32index).map bitsOfQuintet).flatten

/-! ## ExpirationPolicy (`expiration.py`) -/

inductive GCMode where
  | age
  | cutoffDate
deriving DecidableEq

/-- `ExpirationPolicy.__init__` stores the four configuration values; the
constructor preconditions additionally require `mode` to be one of the two
modes (enforced here by `GCMode`) and `cutoff_date` to be an integer or,
when `mode` is not cutoff-date, `None`. -/
structure ExpirationPolicy where
  enabled : Bool
  mode : GCMode
  override_lease_duration : Option Int
  cutoff_date : Option Int
deriving DecidableEq

/-- The constructor preconditions on the stored configuration
(`expiration.py` lines 13-19). -/
def PolicyValid (p : ExpirationPolicy) : Prop :=
  p.cutoff_date.isSome ∨ (p.mode ≠ GCMode.cutoffDate ∧ p.cutoff_date = none)

/-- `ExpirationPolicy.should_expire` (`expiration.py` lines 26-39).
In cutoff-date mode the expiry time is `self._cutoff_date`, ignoring the
lease's timestamps.  The `none` fallthrough in cutoff-date mode is
unreachable under the constructor precondition; Python 2 would evaluate
`int >= None` as `True`, which the fallthrough reproduces. -/
def should_expire (p : ExpirationPolicy) (current_time renewal_time expiration_time : Int) :
    Bool :=
  if !p.enabled then
    false
  else
    let expiry_time : Option Int :=
      match p.mode with
      | GCMode.age =>
          match p.override_lease_duration with
          | none => some expiration_time
          | some d => some (renewal_time + d)
      | GCMode.cutoffDate => p.cutoff_date
    match expiry_time with
    | some t => decide (current_time ≥ t)
    | none => true

def is_enabled (p : ExpirationPolicy) : Bool := p.enabled

/-! ## LeaseDB constants (`leasedb.py` lines 66-151) -/

def SHARETYPE_IMMUTABLE : Nat := 0
def SHARETYPE_MUTABLE : Nat := 1
def SHARETYPE_CORRUPTED : Nat := 2
def SHARETYPE_UNKNOWN : Nat := 3

def STATE_COMING : Nat := 0
def STATE_STABLE : Nat := 1
def STATE_GOING : Nat := 2

def ANONYMOUS_ACCOUNTID : Int := 0
def STARTER_LEASE_ACCOUNTID : Int := 1

/-- `2 * MONTH` where `MONTH = 30 * DAY` and `DAY = 24*60*60`. -/
def STARTER_LEASE_DURATION : Int := 2 * (30 * (24 * 60 * 60))

/-! ## Database rows and state -/

/-- A row of the `shares` table.  `storage_index` is the 26-character
base-32 string stored in the `storage_index` column; `prefixStr` is the
`prefix` column (its first two characters). -/
structure ShareRow where
  storage_index : List Nat
  shnum : Nat
  prefixStr : List Nat
  backend_key : Option (List Nat)
  used_space : Int
  sharetype : Nat
  state : Nat
deriving DecidableEq

/-- A row of the `leases` table; `id` is the AUTOINCREMENT surrogate key. -/
structure LeaseRow where
  id : Nat
  storage_index : List Nat
  shnum : Nat
  account_id : Int
  renewal_time : Int
  expiration_time : Int
deriving DecidableEq

/-- The persistent database state plus the connection's dirty flag and the
`retained_history_entries` attribute.  History entries are kept abstract in
the type `ε`: `simplejson.dumps`/`loads` round-trip is modelled as the
identity.  `next_lease_id` models the AUTOINCREMENT counter of `leases.id`.
The schema's foreign keys are not enforced on insert (sqlite does not
enforce foreign keys by default and the sources never enable them). -/
structure LeaseDB (ε : Type) where
  shares : List ShareRow
  leases : List LeaseRow
  next_lease_id : Nat
  accounts : List (Int × List Nat × Int)
  history : List (Int × ε)
  dirty : Bool
  retained_history_entries : Nat

/-- The two rows pre-seeded into `accounts` by `LEASE_SCHEMA_V1`:
`(0, "anonymous", 0)` and `(1, "starter", 0)` (pubkeys as byte strings). -/
def initialAccounts : List (Int × List Nat × Int) :=
  [(0, [97, 110, 111, 110, 121, 109, 111, 117, 115], 0),
   (1, [115, 116, 97, 114, 116, 101, 114], 0)]

/-- A freshly created database: empty tables except the two seeded
accounts; `_dirty = False`, `retained_history_entries = 10`. -/
def freshLDB (ε : Type) : LeaseDB ε :=
  { shares := [], leases := [], next_lease_id := 1, accounts := initialAccounts,
    history := [], dirty := false, retained_history_entries := 10 }

/-- Errors raised by the embedded methods.  `valueError`, `integrityError`
and `indexError` model the corresponding Python built-in exceptions. -/
inductive DBErr where
  | shareAlreadyInDatabase (si_s : List Nat) (shnum : Nat)
  | nonExistentShare (si_s : List Nat) (shnum : Nat)
  | notImplemented
  | valueError
  | integrityError
  | indexError
deriving DecidableEq

/-- The `WHERE storage_index=? AND shnum=?` test on a `shares` row. -/
def shareKeyMatch (si_s : List Nat) (shnum : Nat) (s : ShareRow) : Bool :=
  decide (s.storage_index = si_s ∧ s.shnum = shnum)

/-- The `WHERE storage_index=? AND shnum=? AND account_id=?` test on a
`leases` row. -/
def leaseTripleMatch (si_s : List Nat) (shnum : Nat) (account_id : Int) (l : LeaseRow) :
    Bool :=
  decide (l.storage_index = si_s ∧ l.shnum = shnum ∧ l.account_id = account_id)

/-! ## LeaseDB share management (`leasedb.py` lines 166-255) -/

/-- `LeaseDB.get_shares_for_prefix`: all rows whose `prefix` column equals
`p`, as a map from `(storage_index, shnum)` to `(used_space, sharetype)`. -/
def LeaseDB.get_shares_for_prefix {ε : Type} (db : LeaseDB ε) (p : List Nat) :
    List ((List Nat × Nat) × (Int × Nat)) :=
  (db.shares.filter (fun s => decide (s.prefixStr = p))).map
    (fun s => ((s.storage_index, s.shnum), (s.used_space, s.sharetype)))

/-- `LeaseDB.add_new_share`: inserts a row in state `STATE_COMING` with a
NULL `backend_key`.  The primary key on `(storage_index, shnum)` turns a
duplicate insert into an `IntegrityError`, re-raised as
`ShareAlreadyInDatabaseError`; `_dirty` has already been set. -/
def LeaseDB.add_new_share {ε : Type} (db : LeaseDB ε) (storage_index : List Nat)
    (shnum : Nat) (used_space : Int) (sharetype : Nat) : Option DBErr × LeaseDB ε :=
  let si_s := si_b2a storage_index
  let px := si_s.take 2
  let db1 := { db with dirty := true }
  if db1.shares.any (shareKeyMatch si_s shnum) then
    (some (DBErr.shareAlreadyInDatabase si_s shnum), db1)
  else
    (none, { db1 with shares := db1.shares ++
        [⟨si_s, shnum, px, none, used_space, sharetype, STATE_COMING⟩] })

/-- `LeaseDB.add_starter_lease`: blindly inserts a lease for the starter
account with `renewal_time = now` and
`expiration_time = now + STARTER_LEASE_DURATION` (`time.time()` is passed
in as `now`).  Note that it converts its `storage_index` argument with
`si_b2a` exactly like the other share operations. -/
def LeaseDB.add_starter_lease {ε : Type} (db : LeaseDB ε) (storage_index : List Nat)
    (shnum : Nat) (now : Int) : LeaseDB ε :=
  let si_s := si_b2a storage_index
  { db with dirty := true,
            leases := db.leases ++
              [⟨db.next_lease_id, si_s, shnum, STARTER_LEASE_ACCOUNTID, now,
                now + STARTER_LEASE_DURATION⟩],
            next_lease_id := db.next_lease_id + 1 }

/-- `LeaseDB.mark_share_as_stable`: `UPDATE shares SET state=STABLE,
used_space=?, backend_key=? WHERE storage_index=? AND shnum=? AND
state!=GOING`; raises `NonExistentShareError` when no row was updated.  The
update's effect remains in the open transaction even when the error is
raised. -/
def LeaseDB.mark_share_as_stable {ε : Type} (db : LeaseDB ε) (storage_index : List Nat)
    (shnum : Nat) (used_space : Int) (backend_key : Option (List Nat)) :
    Option DBErr × LeaseDB ε :=
  let si_s := si_b2a storage_index
  let cond := fun s => shareKeyMatch si_s shnum s && decide (s.state ≠ STATE_GOING)
  let rowcount := db.shares.countP cond
  let db1 := { db with dirty := true,
                       shares := db.shares.map (fun s =>
                         if cond s then
                           { s with state := STATE_STABLE, used_space := used_space,
                                    backend_key := backend_key }
                         else s) }
  if rowcount < 1 then (some (DBErr.nonExistentShare si_s shnum), db1) else (none, db1)

/-- `LeaseDB.mark_share_as_going`: `UPDATE shares SET state=GOING WHERE
storage_index=? AND shnum=? AND state!=COMING`; raises
`NonExistentShareError` when no row was updated. -/
def LeaseDB.mark_share_as_going {ε : Type} (db : LeaseDB ε) (storage_index : List Nat)
    (shnum : Nat) : Option DBErr × LeaseDB ε :=
  let si_s := si_b2a storage_index
  let cond := fun s => shareKeyMatch si_s shnum s && decide (s.state ≠ STATE_COMING)
  let rowcount := db.shares.countP cond
  let db1 := { db with dirty := true,
                       shares := db.shares.map (fun s =>
                         if cond s then { s with state := STATE_GOING } else s) }
  if rowcount < 1 then (some (DBErr.nonExistentShare si_s shnum), db1) else (none, db1)

/-- `LeaseDB.remove_deleted_share`: deletes the share's leases first, then
the share row; absence is not an error. -/
def LeaseDB.remove_deleted_share {ε : Type} (db : LeaseDB ε) (storage_index : List Nat)
    (shnum : Nat) : LeaseDB ε :=
  let si_s := si_b2a storage_index
  { db with dirty := true,
            leases := db.leases.filter (fun l =>
              !(decide (l.storage_index = si_s ∧ l.shnum = shnum))),
            shares := db.shares.filter (fun s => !(shareKeyMatch si_s shnum s)) }

/-- `LeaseDB.change_share_space`: updates `used_space`; raises
`NonExistentShareError` when no row was updated. -/
def LeaseDB.change_share_space {ε : Type} (db : LeaseDB ε) (storage_index : List Nat)
    (shnum : Nat) (used_space : Int) : Option DBErr × LeaseDB ε :=
  let si_s := si_b2a storage_index
  let rowcount := db.shares.countP (shareKeyMatch si_s shnum)
  let db1 := { db with dirty := true,
                       shares := db.shares.map (fun s =>
                         if shareKeyMatch si_s shnum s then
                           { s with used_space := used_space }
                         else s) }
  if rowcount < 1 then (some (DBErr.nonExistentShare si_s shnum), db1) else (none, db1)

/-! ## LeaseDB lease management (`leasedb.py` lines 259-345) -/

/-- One iteration of the loop of `add_or_renew_leases` (lines 282-302): look
up the lease for `(storage_index, found_shnum, account_id)`; if present,
update both timestamps on the row with that `id`; otherwise insert.  The
`INSERT` (line 301-302) binds the method's `shnum` argument, not
`found_shnum`; when `shnum` is `None` the NOT NULL constraint on
`leases.shnum` makes sqlite raise an `IntegrityError`. -/
def upsertLeaseRow (leases : List LeaseRow) (next_id : Nat) (si_s : List Nat)
    (found_shnum : Nat) (shnumArg : Option Nat) (ownerid renewal_time expiration_time : Int) :
    Option DBErr × List LeaseRow × Nat :=
  match leases.find? (leaseTripleMatch si_s found_shnum ownerid) with
  | some row =>
      (none,
       leases.map (fun l =>
         if l.id = row.id then
           { l with renewal_time := renewal_time, expiration_time := expiration_time }
         else l),
       next_id)
  | none =>
      match shnumArg with
      | some n =>
          (none, leases ++ [⟨next_id, si_s, n, ownerid, renewal_time, expiration_time⟩],
           next_id + 1)
      | none => (some DBErr.integrityError, leases, next_id)

/-- The `for (found_si_s, found_shnum) in rows` loop of
`add_or_renew_leases`; an exception aborts the remaining iterations.  (The
`_assert(si_s == found_si_s)` on line 283 always holds because the rows were
selected by `storage_index`.) -/
def renewLoop (si_s : List Nat) (shnumArg : Option Nat)
    (ownerid renewal_time expiration_time : Int) :
    List (List Nat × Nat) → List LeaseRow → Nat → Option DBErr × List LeaseRow × Nat
  | [], ls, nid => (none, ls, nid)
  | (_, fshnum) :: rest, ls, nid =>
      match upsertLeaseRow ls nid si_s fshnum shnumArg ownerid renewal_time expiration_time with
      | (some err, ls1, nid1) => (some err, ls1, nid1)
      | (none, ls1, nid1) =>
          renewLoop si_s shnumArg ownerid renewal_time expiration_time rest ls1 nid1

/-- `LeaseDB.add_or_renew_leases` (lines 259-302).  `shnum = none` targets
every share of the storage index and is a silent no-op when there are none;
an explicit `shnum` raises `NonExistentShareError` when the share row is
missing.  The share's `state` column is never consulted. -/
def LeaseDB.add_or_renew_leases {ε : Type} (db : LeaseDB ε) (storage_index : List Nat)
    (shnum : Option Nat) (ownerid renewal_time expiration_time : Int) :
    Option DBErr × LeaseDB ε :=
  let si_s := si_b2a storage_index
  let db1 := { db with dirty := true }
  match shnum with
  | none =>
      let rows := (db1.shares.filter (fun s => decide (s.storage_index = si_s))).map
        (fun s => (s.storage_index, s.shnum))
      match renewLoop si_s none ownerid renewal_time expiration_time rows db1.leases
          db1.next_lease_id with
      | (err, ls1, nid1) => (err, { db1 with leases := ls1, next_lease_id := nid1 })
  | some n =>
      match (db1.shares.filter (shareKeyMatch si_s n)).map
          (fun s => (s.storage_index, s.shnum)) with
      | [] => (some (DBErr.nonExistentShare si_s n), db1)
      | r1 :: rest =>
          match renewLoop si_s (some n) ownerid renewal_time expiration_time (r1 :: rest)
              db1.leases db1.next_lease_id with
          | (err, ls1, nid1) => (err, { db1 with leases := ls1, next_lease_id := nid1 })

/-- `LeaseDB.get_lease_ages`: `now - renewal_time` for every lease on the
share. -/
def LeaseDB.get_lease_ages {ε : Type} (db : LeaseDB ε) (storage_index : List Nat)
    (shnum : Nat) (now : Int) : List Int :=
  let si_s := si_b2a storage_index
  (db.leases.filter (fun l => decide (l.storage_index = si_s ∧ l.shnum = shnum))).map
    (fun l => now - l.renewal_time)

/-- `LeaseDB.remove_expired_leases` (lines 344-345): the body is
`raise NotImplementedError`; no rows are touched and nothing is
committed. -/
def LeaseDB.remove_expired_leases {ε : Type} (db : LeaseDB ε)
    (_expiration_policy : ExpirationPolicy) : Option DBErr × LeaseDB ε :=
  (some DBErr.notImplemented, db)

/-! ## LeaseDB history (`leasedb.py` lines 349-367) and commit -/

/-- Python list indexing `l[i]` with negative-index wraparound; `none`
models an `IndexError`. -/
def pyIndex {α : Type} (l : List α) (i : Int) : Option α :=
  let j : Int := if i < 0 then (l.length : Int) + i else i
  if 0 ≤ j ∧ j < (l.length : Int) then l[j.toNat]? else none

/-- `list(sorted(rows))[-(retained_history_entries - 1)]` of
`add_history_entry` (line 355): the cycle below which older history rows
are deleted.  In Python, `-(r - 1)` is computed in `Int`. -/
def pruneThreshold (cycles : List Int) (retained : Nat) : Option Int :=
  pyIndex (List.insertionSort (fun a b => a ≤ b) cycles) (-((retained : Int) - 1))

/-- `INSERT OR REPLACE INTO crawler_history VALUES (?,?)`: the unique index
on `cycle` makes the insert replace any existing row with that cycle. -/
def historyInsertOrReplace {ε : Type} (h : List (Int × ε)) (cycle : Int) (entry : ε) :
    List (Int × ε) :=
  h.filter (fun r => decide (r.1 ≠ cycle)) ++ [(cycle, entry)]

/-- `LeaseDB.add_history_entry` (lines 349-361): when the current number of
history rows is at least `retained_history_entries`, rows with cycle below
the threshold are deleted; then the entry is inserted (replacing any row
with the same cycle) and the transaction is committed
(`self.commit(always=True)`, so `_dirty` ends up `False`).  The JSON
serialization of the entry is modelled as the identity.  An out-of-range
threshold index raises `IndexError` before any mutation. -/
def LeaseDB.add_history_entry {ε : Type} (db : LeaseDB ε) (cycle : Int) (entry : ε) :
    Option DBErr × LeaseDB ε :=
  let rows := db.history.map (fun r => r.1)
  if rows.length ≥ db.retained_history_entries then
    match pruneThreshold rows db.retained_history_entries with
    | none => (some DBErr.indexError, db)
    | some t =>
        let pruned := db.history.filter (fun r => !(decide (r.1 < t)))
        (none, { db with history := historyInsertOrReplace pruned cycle entry,
                         dirty := false })
  else
    (none, { db with history := historyInsertOrReplace db.history cycle entry,
                     dirty := false })

/-- `LeaseDB.get_history`: the stored cycle/entry pairs (JSON decoding is
the identity on the abstract entries). -/
def LeaseDB.get_history {ε : Type} (db : LeaseDB ε) : List (Int × ε) :=
  db.history

/-- `LeaseDB.commit`: flushes when dirty or forced; only the flag is
observable here. -/
def LeaseDB.commit {ε : Type} (db : LeaseDB ε) (always : Bool) : LeaseDB ε :=
  if db.dirty || always then { db with dirty := false } else db

/-! ## AccountingCrawler cycle statistics (`leasedb.py` lines 495-547) -/

/-- `AccountingCrawler.increment`: `if k not in d: d[k] = 0` then
`d[k] += delta`. -/
def increment {κ : Type} [DecidableEq κ] (d : List (κ × Int)) (k : κ) (delta : Int) :
    List (κ × Int) :=
  if d.any (fun p => decide (p.1 = k)) then
    d.map (fun p => if p.1 = k then (p.1, p.2 + delta) else p)
  else
    d ++ [(k, delta)]

/-- `SHARETYPES[st]`. -/
def sharetypeName : Nat → String
  | 0 => "immutable"
  | 1 => "mutable"
  | 2 => "corrupted"
  | _ => "unknown"

def sActual : String := "actual"
def sExamined : String := "examined"
def sBuckets : String := "buckets"
def sShares : String := "shares"
def sDiskbytes : String := "diskbytes"
def sSharebytes : String := "sharebytes"
def sDash : String := "-"

def kExaminedShares : String := sExamined ++ sDash ++ sShares
def kExaminedSharebytes : String := sExamined ++ sDash ++ sSharebytes
def kExaminedBuckets : String := sExamined ++ sDash ++ sBuckets
def kExaminedSharesD : String := kExaminedShares ++ sDash
def kExaminedSharebytesD : String := kExaminedSharebytes ++ sDash
def kExaminedBucketsD : String := kExaminedBuckets ++ sDash

/-- `AccountingCrawler.create_empty_recovered_dict`. -/
def create_empty_recovered_dict : List (String × Int) :=
  (([sActual, sExamined]).map (fun a =>
    (([sBuckets, sShares, sDiskbytes]).map (fun b =>
      (a ++ sDash ++ b, (0 : Int)) ::
        ((List.range 4).map (fun st =>
          (a ++ sDash ++ b ++ sDash ++ sharetypeName st, (0 : Int)))))).flatten)).flatten

/-- The parts of `state["cycle-to-date"]` that `process_prefixdir` touches:
`space-recovered` and `lease-age-histogram` (the leases-per-share histogram
and corrupt-share list are not updated by it). -/
structure CrawlerCycleState where
  space_recovered : List (String × Int)
  lease_age_histogram : List ((Int × Int) × Int)
deriving DecidableEq

/-- `create_empty_cycle_dict`, restricted to the tracked fields. -/
def emptyCycleState : CrawlerCycleState :=
  { space_recovered := create_empty_recovered_dict, lease_age_histogram := [] }

/-- `AccountingCrawler.add_lease_age_to_histogram`: day-sized bins;
`int(age / bin_interval)` truncates toward zero, which on integral ages is
`Int.div`. -/
def add_lease_age_to_histogram (cst : CrawlerCycleState) (age : Int) : CrawlerCycleState :=
  let bin_interval : Int := 24 * 60 * 60
  let bin_number := Int.tdiv age bin_interval
  let bin_start := bin_number * bin_interval
  let bin_end := bin_start + bin_interval
  { cst with lease_age_histogram :=
      increment cst.lease_age_histogram (bin_start, bin_end) 1 }

/-! ## AccountingCrawler.process_prefixdir (`leasedb.py` lines 409-476) -/

/-- The per-share statistics loop (lines 438-450): bins the share's lease
ages into the histogram and bumps the examined counters. -/
def statsFold {ε : Type} (db : LeaseDB ε) (start_slice : Int) (cst : CrawlerCycleState)
    (db_sharemap : List ((List Nat × Nat) × (Int × Nat))) : CrawlerCycleState :=
  db_sharemap.foldl (fun c ent =>
    let si_s := ent.1.1
    let shnum := ent.1.2
    let used_space := ent.2.1
    let sharetype := ent.2.2
    let ages := db.get_lease_ages (si_a2b si_s) shnum start_slice
    let c1 := ages.foldl add_lease_age_to_histogram c
    let sr1 := increment c1.space_recovered kExaminedShares 1
    let sr2 := increment sr1 kExaminedSharebytes used_space
    let sr3 := increment sr2 (kExaminedSharesD ++ sharetypeName sharetype) 1
    let sr4 := increment sr3 (kExaminedSharebytesD ++ sharetypeName sharetype) used_space
    { c1 with space_recovered := sr4 }) cst

/-- The bucket-counting block (lines 431-432 and 452-454): per sharetype,
the number of distinct storage indexes having a share of that type. -/
def bucketStats (cst : CrawlerCycleState)
    (db_sharemap : List ((List Nat × Nat) × (Int × Nat))) : CrawlerCycleState :=
  let setFor := fun (st : Nat) =>
    (((db_sharemap.filter (fun ent => decide (ent.2.2 = st))).map
      (fun ent => ent.1.1)).dedup)
  let total : Int := ((List.range 4).map (fun st => ((setFor st).length : Int))).sum
  let sr1 := increment cst.space_recovered kExaminedBuckets total
  let sr2 := (List.range 4).foldl (fun d st =>
    increment d (kExaminedBucketsD ++ sharetypeName st) ((setFor st).length : Int)) sr1
  { cst with space_recovered := sr2 }

/-- The `for (si_s, shnum) in new_shares` loop (lines 458-469): query the
backend for the used space, `add_new_share(si_a2b(si_s), ...)` — the
`except ShareAlreadyInDatabaseError` handler re-raises — then
`add_starter_lease(si_s, shnum)`.  Note the argument: `si_s` is the
already-encoded base-32 string, which `add_starter_lease` will encode
again with `si_b2a`. -/
def discoverLoop {ε : Type} (used_space_of : List Nat → Nat → Int) (now : Int) :
    List (List Nat × Nat) → LeaseDB ε → Option DBErr × LeaseDB ε
  | [], db => (none, db)
  | (si_s, shnum) :: rest, db =>
      match db.add_new_share (si_a2b si_s) shnum (used_space_of si_s shnum)
          SHARETYPE_UNKNOWN with
      | (some err, db1) => (some err, db1)
      | (none, db1) =>
          discoverLoop used_space_of now rest (db1.add_starter_lease si_s shnum now)

/-- `AccountingCrawler.process_prefixdir`.  The on-disk enumeration
(lines 414-423, `os.listdir` over the prefix directory) is supplied as the
`disk_shares` list of `(si_s, shnum)` pairs and the backend's
`get_used_space` as `used_space_of`, both modelled from the spec's backend
contract; `now` is the clock value read by `add_starter_lease`.

The vanished-share loop (line 473) is
`for (si_s, shnum, sharetype) in deleted_shares:`, but the elements of
`deleted_shares` are the 2-tuples built at lines 422 and 427; Python raises
`ValueError` while unpacking the first element, before any
`remove_deleted_share` call and before the commit at line 476. -/
def process_prefixdir {ε : Type} (db : LeaseDB ε) (cst : CrawlerCycleState)
    (px : List Nat) (disk_shares : List (List Nat × Nat))
    (used_space_of : List Nat → Nat → Int) (start_slice now : Int) :
    Option DBErr × LeaseDB ε × CrawlerCycleState :=
  let db_sharemap := db.get_shares_for_prefix px
  let db_shares := db_sharemap.map (fun ent => ent.1)
  let cst1 := statsFold db start_slice cst db_sharemap
  let cst2 := bucketStats cst1 db_sharemap
  let new_shares := disk_shares.filter (fun sh => decide (sh ∉ db_shares))
  match discoverLoop used_space_of now new_shares db with
  | (some err, db1) => (some err, db1, cst2)
  | (none, db1) =>
      let deleted_shares := db_shares.filter (fun sh => decide (sh ∉ disk_shares))
      match deleted_shares with
      | [] => (none, db1.commit false, cst2)
      | _ :: _ => (some DBErr.valueError, db1, cst2)

/-! ## Observation helpers and the LeaseDB operation alphabet -/

/-- The share row stored under a given `(storage_index, shnum)` key (the
primary key makes it unique in any state reachable from a fresh database). -/
def LeaseDB.lookupShare {ε : Type} (db : LeaseDB ε) (si_s : List Nat) (shnum : Nat) :
    Option ShareRow :=
  db.shares.find? (shareKeyMatch si_s shnum)

/-- One call to a mutating `LeaseDB` method, with its arguments. -/
inductive LDBOp (ε : Type) where
  | add_new_share (si : List Nat) (shnum : Nat) (used_space : Int) (sharetype : Nat)
  | add_starter_lease (si : List Nat) (shnum : Nat) (now : Int)
  | mark_share_as_stable (si : List Nat) (shnum : Nat) (used_space : Int)
      (backend_key : Option (List Nat))
  | mark_share_as_going (si : List Nat) (shnum : Nat)
  | remove_deleted_share (si : List Nat) (shnum : Nat)
  | change_share_space (si : List Nat) (shnum : Nat) (used_space : Int)
  | add_or_renew_leases (si : List Nat) (shnum : Option Nat)
      (ownerid renewal_time expiration_time : Int)
  | add_history_entry (cycle : Int) (entry : ε)
  | remove_expired_leases (pol : ExpirationPolicy)
  | commit (always : Bool)

/-- The state after one call; a raised exception leaves the object in the
state it had reached (Python mutates `self` in place). -/
def applyOp {ε : Type} (db : LeaseDB ε) : LDBOp ε → LeaseDB ε
  | LDBOp.add_new_share si n u st => (db.add_new_share si n u st).2
  | LDBOp.add_starter_lease si n now => db.add_starter_lease si n now
  | LDBOp.mark_share_as_stable si n u bk => (db.mark_share_as_stable si n u bk).2
  | LDBOp.mark_share_as_going si n => (db.mark_share_as_going si n).2
  | LDBOp.remove_deleted_share si n => db.remove_deleted_share si n
  | LDBOp.change_share_space si n u => (db.change_share_space si n u).2
  | LDBOp.add_or_renew_leases si n o r e => (db.add_or_renew_leases si n o r e).2
  | LDBOp.add_history_entry c ent => (db.add_history_entry c ent).2
  | LDBOp.remove_expired_leases pol => (db.remove_expired_leases pol).2
  | LDBOp.commit a => db.commit a

/-- The state after a sequence of calls. -/
def applyOps {ε : Type} (db : LeaseDB ε) (ops : List (LDBOp ε)) : LeaseDB ε :=
  ops.foldl applyOp db

/-- The `shares` table's primary-key column list. -/
def shareKeys {ε : Type} (db : LeaseDB ε) : List (List Nat × Nat) :=
  db.shares.map (fun s => (s.storage_index, s.shnum))

/-! ## Concrete sample data used by witnesses and counterexamples -/

/-- The 26-character base-32 string of 16 zero bytes: 26 times `'a'`. -/
def si26 : List Nat := List.replicate 26 97

/-- 16 zero bytes; `si_b2a si16 = si26`. -/
def si16 : List Nat := List.replicate 16 0

def prefixAA : List Nat := [97, 97]

/-- One stable share of `si26` with one lease, as pre-populated state. -/
def dbC4 : LeaseDB Nat :=
  { freshLDB Nat with
      shares := [⟨si26, 0, prefixAA, none, 1000, SHARETYPE_IMMUTABLE, STATE_STABLE⟩],
      leases := [⟨1, si26, 0, 0, 50, 950⟩],
      next_lease_id := 2 }

/-- A database holding only crawler history, with a configurable
`retained_history_entries`. -/
def ldbH (retained : Nat) (h : List (Int × Nat)) : LeaseDB Nat :=
  { freshLDB Nat with history := h, retained_history_entries := retained }

def rowGoing : ShareRow := ⟨si26, 0, prefixAA, none, 5, SHARETYPE_IMMUTABLE, STATE_GOING⟩

/-- One share of `si26` in state GOING. -/
def dbGoing : LeaseDB Nat := { freshLDB Nat with shares := [rowGoing] }

def rowStable : ShareRow := ⟨si26, 0, prefixAA, none, 1000, SHARETYPE_IMMUTABLE, STATE_STABLE⟩

/-- One stable share of `si26` with no leases. -/
def dbStable : LeaseDB Nat := { freshLDB Nat with shares := [rowStable] }

/-! ## Theorems -/

set_option maxRecDepth 100000

/-- C1: the claim states that `remove_expired_leases(p)` deletes exactly the
leases for which `p.should_expire(now, renewal_time, expiration_time)` holds
and commits; the source method instead raises `NotImplementedError`
unconditionally, touching no rows and committing nothing. -/
theorem claim_C1 (ε : Type) (db : LeaseDB ε) (pol : ExpirationPolicy) :
    db.remove_expired_leases pol = (some DBErr.notImplemented, db) :=
  rfl

/-- C2: with an enabled cutoff-date policy with `cutoff_date = 500`,
`should_expire` ignores `renewal_time` and `expiration_time` entirely and
returns `now ≥ 500`: at `now = 600` a lease with `renewal_time = 501` IS
reported expired, and at `now = 499` a lease with `renewal_time = 499` is
NOT — contradicting the claimed equivalence with `renewal_time < 500` and
the claimed 499/501 behavior. -/
theorem claim_C2 :
    should_expire ⟨true, GCMode.cutoffDate, none, some 500⟩ 600 501 9999 = true ∧
    should_expire ⟨true, GCMode.cutoffDate, none, some 500⟩ 499 499 9999 = false ∧
    (∀ (now r1 e1 r2 e2 : Int),
      should_expire ⟨true, GCMode.cutoffDate, none, some 500⟩ now r1 e1 =
        should_expire ⟨true, GCMode.cutoffDate, none, some 500⟩ now r2 e2) :=
  ⟨rfl, rfl, fun _ _ _ _ _ => rfl⟩

/-- C8: `should_expire` is a pure function of its three arguments and the
stored configuration; it is false whenever the policy is disabled; in age
mode it compares `now` with the lease's `expiration_time` when no override
is configured, and with `renewal_time + d` when `override_lease_duration`
is `d`. -/
theorem claim_C8 :
    (∀ (p : ExpirationPolicy), p.enabled = false →
      ∀ (now r e : Int), should_expire p now r e = false) ∧
    (∀ (now r e : Int),
      should_expire ⟨true, GCMode.age, none, none⟩ now r e = decide (now ≥ e)) ∧
    (∀ (d now r e : Int),
      should_expire ⟨true, GCMode.age, some d, none⟩ now r e = decide (now ≥ r + d)) := by
  refine ⟨?_, ?_, ?_⟩
  · intro p hp now r e
    simp [should_expire, hp]
  · intro now r e
    rfl
  · intro d now r e
    rfl

/-- C8 witness: the disabled-policy conjunct instantiated at a concrete
disabled policy, and the two age-mode equations instantiated at the
concrete timestamps of the spec's age-mode scenario. -/
theorem claim_C8_witness :
    should_expire ⟨false, GCMode.age, none, none⟩ 99 0 0 = false ∧
    should_expire ⟨true, GCMode.age, none, none⟩ 1050 1000 2000 = decide ((1050 : Int) ≥ 2000) ∧
    should_expire ⟨true, GCMode.age, some 100, none⟩ 1101 1000 2000 =
      decide ((1101 : Int) ≥ 1000 + 100) :=
  ⟨claim_C8.1 ⟨false, GCMode.age, none, none⟩ rfl 99 0 0,
   claim_C8.2.1 1050 1000 2000,
   claim_C8.2.2 100 1101 1000 2000⟩

/-- C3: running `process_prefixdir` on a fresh database with a single
on-disk orphan `(si26, 0)` of 1000 bytes creates the share row (COMING,
sharetype unknown, used_space 1000) as claimed, but the starter lease is
inserted under `si_b2a si26` — the 42-character re-encoding of the
already-encoded storage index string — so the discovered share itself ends
up with NO lease, against the claimed "exactly one lease on that same
share". -/
theorem claim_C3 :
    (process_prefixdir (freshLDB Nat) emptyCycleState prefixAA [(si26, 0)]
      (fun _ _ => 1000) 0 100).1 = none ∧
    (process_prefixdir (freshLDB Nat) emptyCycleState prefixAA [(si26, 0)]
      (fun _ _ => 1000) 0 100).2.1.shares =
      [⟨si26, 0, prefixAA, none, 1000, SHARETYPE_UNKNOWN, STATE_COMING⟩] ∧
    (process_prefixdir (freshLDB Nat) emptyCycleState prefixAA [(si26, 0)]
      (fun _ _ => 1000) 0 100).2.1.leases.filter
        (fun l => decide (l.storage_index = si26)) = [] ∧
    (process_prefixdir (freshLDB Nat) emptyCycleState prefixAA [(si26, 0)]
      (fun _ _ => 1000) 0 100).2.1.leases =
      [⟨1, si_b2a si26, 0, STARTER_LEASE_ACCOUNTID, 100, 100 + STARTER_LEASE_DURATION⟩] ∧
    si_b2a si26 ≠ si26 := by
  decide

/-- C4: running `process_prefixdir` on a prefix whose database records the
share `(si26, 0)` while the disk holds nothing raises `ValueError` (the
vanished-share loop unpacks the 2-tuples of `deleted_shares` into three
names), so the share row and its lease are NOT removed, against the
claim. -/
theorem claim_C4 :
    (process_prefixdir dbC4 emptyCycleState prefixAA [] (fun _ _ => 0) 100 100).1 =
      some DBErr.valueError ∧
    (process_prefixdir dbC4 emptyCycleState prefixAA [] (fun _ _ => 0) 100 100).2.1.shares =
      dbC4.shares ∧
    (process_prefixdir dbC4 emptyCycleState prefixAA [] (fun _ _ => 0) 100 100).2.1.leases =
      dbC4.leases := by
  decide

/-- C6 counterexample: with `retained_history_entries = 1`, adding history
entries for cycles 1 and 2 leaves 2 rows — more than
`retained_history_entries` — because `list(sorted(rows))[-(1 - 1)]` is the
SMALLEST cycle, so the pruning delete removes nothing. -/
theorem claim_C6_counterexample :
    ((((ldbH 1 []).add_history_entry 1 0).2.add_history_entry 2 0).2.history.length = 2) ∧
    ((((ldbH 1 []).add_history_entry 1 0).2.add_history_entry 2 0).2.retained_history_entries
      = 1) := by
  decide

/-! ### Generic list lemmas -/

theorem find?_append_left {α : Type} {p : α → Bool} {l1 l2 : List α} {a : α}
    (h : l1.find? p = some a) : (l1 ++ l2).find? p = some a := by
  rw [List.find?_append, h, Option.or_some]

theorem find?_append_of_none {α : Type} {p : α → Bool} {l1 l2 : List α}
    (h : ∀ a ∈ l1, p a = false) : (l1 ++ l2).find? p = l2.find? p := by
  rw [List.find?_append, List.find?_eq_none.mpr (fun x hx => by simp [h x hx]),
    Option.none_or]

theorem find?_map_pred {α : Type} {p : α → Bool} {f : α → α} {l : List α}
    (hf : ∀ a, p (f a) = p a) : (l.map f).find? p = (l.find? p).map f := by
  induction l with
  | nil => simp
  | cons b tl ih =>
      rw [List.map_cons]
      cases hb : p b with
      | true =>
          rw [List.find?_cons_of_pos _ (by rw [hf b]; exact hb),
            List.find?_cons_of_pos _ hb]
          rfl
      | false =>
          rw [List.find?_cons_of_neg _ (by rw [hf b]; simp [hb]),
            List.find?_cons_of_neg _ (by simp [hb])]
          exact ih

theorem find?_filter_of_imp {α : Type} {p q : α → Bool} {l : List α}
    (h : ∀ a, p a = true → q a = true) : (l.filter q).find? p = l.find? p := by
  induction l with
  | nil => simp
  | cons b tl ih =>
      rw [List.filter_cons]
      cases hq : q b with
      | true =>
          rw [if_pos (by simp)]
          cases hb : p b with
          | true =>
              rw [List.find?_cons_of_pos _ hb, List.find?_cons_of_pos _ hb]
          | false =>
              rw [List.find?_cons_of_neg _ (by simp [hb]),
                List.find?_cons_of_neg _ (by simp [hb])]
              exact ih
      | false =>
          rw [if_neg (by simp)]
          cases hb : p b with
          | true => exact absurd (h b hb) (by simp [hq])
          | false =>
              rw [List.find?_cons_of_neg _ (by simp [hb])]
              exact ih

theorem find?_filter_none {α : Type} {p q : α → Bool} {l : List α}
    (h : ∀ a, p a = true → q a = false) : (l.filter q).find? p = none := by
  rw [List.find?_eq_none]
  intro a ha hp
  rw [List.mem_filter] at ha
  have := h a hp
  rw [this] at ha
  exact absurd ha.2 (by simp)

theorem map_eq_self_of {α : Type} {f : α → α} {l : List α}
    (h : ∀ a ∈ l, f a = a) : l.map f = l := by
  induction l with
  | nil => rfl
  | cons b tl ih =>
      rw [List.map_cons, h b (by simp), ih (fun a ha => h a (by simp [ha]))]

theorem nodupMapInj {α β : Type} {f : α → β} {l : List α} {a b : α}
    (hn : (l.map f).Nodup) (ha : a ∈ l) (hb : b ∈ l) (hf : f a = f b) : a = b := by
  induction l with
  | nil => simp at ha
  | cons c tl ih =>
      rw [List.map_cons, List.nodup_cons] at hn
      rcases List.mem_cons.mp ha with rfl | ha'
      · rcases List.mem_cons.mp hb with rfl | hb'
        · rfl
        · exact absurd (hf ▸ List.mem_map_of_mem f hb') hn.1
      · rcases List.mem_cons.mp hb with rfl | hb'
        · exact absurd (hf ▸ List.mem_map_of_mem f ha') hn.1
        · exact ih hn.2 ha' hb'

theorem eq_singleton_of_length_le_one {α : Type} {l : List α} {a : α}
    (h1 : l.length ≤ 1) (hm : a ∈ l) : l = [a] := by
  match l, h1 with
  | [], _ => simp at hm
  | [x], _ =>
      rcases List.mem_singleton.mp hm with rfl
      rfl

theorem find?_eq_head_of_filter {α : Type} {p : α → Bool} {l r : List α} {a : α}
    (h : l.filter p = a :: r) : l.find? p = some a := by
  induction l generalizing r with
  | nil => simp at h
  | cons b tl ih =>
      rw [List.filter_cons] at h
      cases hb : p b with
      | true =>
          rw [if_pos (by simp [hb])] at h
          injection h with h1 _
          rw [h1] at hb ⊢
          exact List.find?_cons_of_pos _ hb
      | false =>
          rw [if_neg (by simp [hb])] at h
          rw [List.find?_cons_of_neg _ (by simp [hb])]
          exact ih h

/-! ### Lemmas on sorted cycle lists and Python indexing -/

theorem countP_ge_of_pairwise (t : Int) (s : List Int) (hs : s.Pairwise (· < ·)) :
    ∀ (i : Nat) (h : i < s.length), s[i] = t →
      s.countP (fun x => decide (t ≤ x)) = s.length - i := by
  induction s with
  | nil =>
      intro i h ht
      simp at h
  | cons a tl ih =>
      rw [List.pairwise_cons] at hs
      intro i h ht
      match i with
      | 0 =>
          rw [List.getElem_cons_zero] at ht
          subst ht
          rw [List.countP_cons, if_pos (by simp)]
          have hall : tl.countP (fun x => decide (a ≤ x)) = tl.length :=
            List.countP_eq_length.mpr (fun b hb => by
              simp only [decide_eq_true_eq]
              exact le_of_lt (hs.1 b hb))
          simp [hall]
      | j + 1 =>
          rw [List.getElem_cons_succ] at ht
          have hj : j < tl.length := by simpa using h
          have hat : a < t := by
            have := hs.1 tl[j] (tl.getElem_mem hj)
            rwa [ht] at this
          rw [List.countP_cons, if_neg (by simp; omega)]
          have := ih hs.2 j hj ht
          simp only [List.length_cons]
          omega

theorem pairwise_lt_of_sorted_nodup {s : List Int}
    (h1 : s.Pairwise (fun a b => a ≤ b)) (h2 : s.Nodup) : s.Pairwise (· < ·) :=
  (List.Pairwise.and h1 h2).imp (fun h => lt_of_le_of_ne h.1 h.2)

theorem head_le_of_sorted {s : List Int} (h1 : s.Pairwise (fun a b => a ≤ b))
    {x : Int} (hx : x ∈ s) (h : 0 < s.length) : s[0] ≤ x := by
  match s with
  | a :: tl =>
      rw [List.pairwise_cons] at h1
      rw [List.getElem_cons_zero]
      rcases List.mem_cons.mp hx with rfl | hx'
      · exact le_refl _
      · exact h1.1 x hx'

theorem pyIndex_neg {α : Type} (l : List α) (R : Nat) (hR : 2 ≤ R) (hL : R ≤ l.length) :
    ∃ (h : l.length - R + 1 < l.length),
      pyIndex l (-((R : Int) - 1)) = some (l[l.length - R + 1]) := by
  have hlen : l.length - R + 1 < l.length := by omega
  refine ⟨hlen, ?_⟩
  unfold pyIndex
  have hi : (-((R : Int) - 1)) < 0 := by omega
  simp only [if_pos hi]
  rw [if_pos (by constructor <;> omega)]
  have hj : ((l.length : Int) + -((R : Int) - 1)).toNat = l.length - R + 1 := by omega
  rw [hj]
  exact List.getElem?_eq_getElem hlen

theorem pyIndex_zero {α : Type} (l : List α) (h : 0 < l.length) :
    pyIndex l 0 = some (l[0]) := by
  unfold pyIndex
  simp only [if_neg (by omega : ¬ (0 : Int) < 0)]
  rw [if_pos (by constructor <;> omega)]
  exact List.getElem?_eq_getElem h

/-! ### History lemmas -/

theorem insertOrReplace_find? {ε : Type} (h : List (Int × ε)) (c : Int) (e : ε) :
    (historyInsertOrReplace h c e).find? (fun r => decide (r.1 = c)) = some (c, e) := by
  rw [historyInsertOrReplace]
  rw [find?_append_of_none (fun a ha => by
    rw [List.mem_filter] at ha
    have := ha.2
    simp only [decide_eq_true_eq] at this
    simp [this])]
  rw [List.find?_cons_of_pos _ (by simp)]

theorem insertOrReplace_length_le {ε : Type} (h : List (Int × ε)) (c : Int) (e : ε)
    (hmem : c ∈ h.map (fun r => r.1)) :
    (historyInsertOrReplace h c e).length ≤ h.length := by
  rw [historyInsertOrReplace, List.length_append, List.length_singleton]
  have hlt : (h.filter (fun r => decide (r.1 ≠ c))).length < h.length := by
    rw [← List.countP_eq_length_filter]
    rcases lt_or_eq_of_le (List.countP_le_length (fun r => decide (r.1 ≠ c)) (l := h)) with
      hlt | heq
    · exact hlt
    · exfalso
      obtain ⟨r, hr, hrc⟩ := List.mem_map.mp hmem
      have := List.countP_eq_length.mp heq r hr
      simp only [decide_eq_true_eq] at this
      exact this hrc
  omega

theorem insertOrReplace_length_le_succ {ε : Type} (h : List (Int × ε)) (c : Int) (e : ε) :
    (historyInsertOrReplace h c e).length ≤ h.length + 1 := by
  rw [historyInsertOrReplace, List.length_append, List.length_singleton]
  have := List.length_filter_le (fun (r : Int × ε) => decide (r.1 ≠ c)) h
  omega

theorem survivors_eq_ge_filter {ε : Type} (h : List (Int × ε)) (t : Int) :
    h.filter (fun r => !(decide (r.1 < t))) = h.filter (fun r => decide (t ≤ r.1)) :=
  List.filter_congr (fun r _ => by rw [← decide_not]; exact decide_eq_decide.mpr not_lt)

theorem survivors_length {ε : Type} (h : List (Int × ε)) (t : Int) :
    (h.filter (fun r => !(decide (r.1 < t)))).length =
      (h.map (fun r => r.1)).countP (fun x => decide (t ≤ x)) := by
  rw [survivors_eq_ge_filter, ← List.countP_eq_length_filter, List.countP_map]
  rfl

/-- The two branches of `add_history_entry`, in terms of the threshold. -/
theorem add_history_entry_of_ge {ε : Type} (db : LeaseDB ε) (cycle : Int) (entry : ε)
    (t : Int)
    (hcase : (db.history.map (fun r => r.1)).length ≥ db.retained_history_entries)
    (hthresh : pruneThreshold (db.history.map (fun r => r.1))
      db.retained_history_entries = some t) :
    db.add_history_entry cycle entry =
      (none, { db with
        history := historyInsertOrReplace
          (db.history.filter (fun r => !(decide (r.1 < t)))) cycle entry,
        dirty := false }) := by
  rw [LeaseDB.add_history_entry]
  simp only [if_pos hcase, hthresh]

theorem add_history_entry_of_lt {ε : Type} (db : LeaseDB ε) (cycle : Int) (entry : ε)
    (hcase : ¬ ((db.history.map (fun r => r.1)).length ≥ db.retained_history_entries)) :
    db.add_history_entry cycle entry =
      (none, { db with history := historyInsertOrReplace db.history cycle entry,
                       dirty := false }) := by
  rw [LeaseDB.add_history_entry]
  simp only [if_neg hcase]

/-- The threshold in the pruning branch, for retention bound at least 2. -/
theorem pruneThreshold_spec (rows : List Int) (R : Nat) (hnodup : rows.Nodup)
    (hR : 2 ≤ R) (hL : R ≤ rows.length) :
    ∃ t, pruneThreshold rows R = some t ∧
      rows.countP (fun x => decide (t ≤ x)) = R - 1 := by
  have hperm : List.Perm (List.insertionSort (fun a b => a ≤ b) rows) rows :=
    List.perm_insertionSort _ rows
  have hslen : (List.insertionSort (fun a b => a ≤ b) rows).length = rows.length :=
    hperm.length_eq
  have hlt : (List.insertionSort (fun a b => a ≤ b) rows).Pairwise (· < ·) :=
    pairwise_lt_of_sorted_nodup (List.sorted_insertionSort _ rows)
      (hperm.nodup_iff.mpr hnodup)
  obtain ⟨hidx, hpy⟩ := pyIndex_neg (List.insertionSort (fun a b => a ≤ b) rows) R hR
    (by omega)
  refine ⟨_, hpy, ?_⟩
  rw [← hperm.countP_eq]
  rw [countP_ge_of_pairwise _ _ hlt _ hidx rfl]
  omega

/-- The threshold at retention bound 1 is the minimum cycle, so nothing is
pruned. -/
theorem pruneThreshold_one (rows : List Int) (hL : 1 ≤ rows.length) :
    ∃ t, pruneThreshold rows 1 = some t ∧ ∀ x ∈ rows, t ≤ x := by
  have hperm : List.Perm (List.insertionSort (fun a b => a ≤ b) rows) rows :=
    List.perm_insertionSort _ rows
  have hpos : 0 < (List.insertionSort (fun a b => a ≤ b) rows).length := by
    rw [hperm.length_eq]; omega
  refine ⟨(List.insertionSort (fun a b => a ≤ b) rows)[0], ?_, ?_⟩
  · rw [pruneThreshold]
    have hzero : -(((1 : Nat) : Int) - 1) = 0 := by norm_num
    rw [hzero]
    exact pyIndex_zero _ hpos
  · intro x hx
    exact head_le_of_sorted (List.sorted_insertionSort _ rows)
      (hperm.mem_iff.mpr hx) hpos

/-- C6 (amended): provided `retained_history_entries ≥ 2` (and cycle
numbers unique, as the unique index guarantees), every `add_history_entry`
leaves at most `retained_history_entries` history rows; when the table
already holds at least `retained_history_entries` rows, the oldest rows
(cycles below the threshold) are pruned so that exactly
`retained_history_entries − 1` remain before the insert. -/
theorem claim_C6 (ε : Type) (db : LeaseDB ε) (cycle : Int) (entry : ε)
    (hnodup : (db.history.map (fun r => r.1)).Nodup)
    (hR : 2 ≤ db.retained_history_entries) :
    (db.add_history_entry cycle entry).1 = none ∧
    (db.add_history_entry cycle entry).2.history.length ≤ db.retained_history_entries ∧
    (db.retained_history_entries ≤ db.history.length →
      ∃ t, pruneThreshold (db.history.map (fun r => r.1)) db.retained_history_entries
          = some t ∧
        (db.history.filter (fun r => !(decide (r.1 < t)))).length =
          db.retained_history_entries - 1 ∧
        (db.add_history_entry cycle entry).2.history =
          historyInsertOrReplace (db.history.filter (fun r => !(decide (r.1 < t))))
            cycle entry) := by
  have hlenrows : (db.history.map (fun r => r.1)).length = db.history.length :=
    List.length_map _ _
  by_cases hcase : (db.history.map (fun r => r.1)).length ≥ db.retained_history_entries
  · obtain ⟨t, hthresh, hcount⟩ := pruneThreshold_spec (db.history.map (fun r => r.1))
      db.retained_history_entries hnodup hR hcase
    have heq := add_history_entry_of_ge db cycle entry t hcase hthresh
    have hsurv : (db.history.filter (fun r => !(decide (r.1 < t)))).length =
        db.retained_history_entries - 1 := by
      rw [survivors_length]; exact hcount
    have herr : (db.add_history_entry cycle entry).1 = none := by rw [heq]
    have hhist : (db.add_history_entry cycle entry).2.history =
        historyInsertOrReplace (db.history.filter (fun r => !(decide (r.1 < t))))
          cycle entry := by rw [heq]
    refine ⟨herr, ?_, fun _ => ⟨t, hthresh, hsurv, hhist⟩⟩
    rw [hhist]
    have hb := insertOrReplace_length_le_succ
      (db.history.filter (fun r => !(decide (r.1 < t)))) cycle entry
    omega
  · have heq := add_history_entry_of_lt db cycle entry hcase
    have herr : (db.add_history_entry cycle entry).1 = none := by rw [heq]
    have hhist : (db.add_history_entry cycle entry).2.history =
        historyInsertOrReplace db.history cycle entry := by rw [heq]
    refine ⟨herr, ?_, ?_⟩
    · rw [hhist]
      have hb := insertOrReplace_length_le_succ db.history cycle entry
      omega
    · intro hge
      exact absurd (by omega : (db.history.map (fun r => r.1)).length ≥
        db.retained_history_entries) hcase

/-- C9: inserting a history entry for a cycle that already has one succeeds
(the `INSERT OR REPLACE` avoids a uniqueness error), afterwards
`get_history()` holds the new entry for that cycle, and the number of
history rows does not increase. -/
theorem claim_C9 (ε : Type) (db : LeaseDB ε) (c : Int) (e2 : ε)
    (hnodup : (db.history.map (fun r => r.1)).Nodup)
    (hmem : c ∈ db.history.map (fun r => r.1))
    (hR : 1 ≤ db.retained_history_entries) :
    (db.add_history_entry c e2).1 = none ∧
    (db.add_history_entry c e2).2.get_history.find? (fun r => decide (r.1 = c)) =
      some (c, e2) ∧
    (db.add_history_entry c e2).2.history.length ≤ db.history.length := by
  have hlenrows : (db.history.map (fun r => r.1)).length = db.history.length :=
    List.length_map _ _
  have hLpos : 1 ≤ db.history.length := by
    rcases List.mem_map.mp hmem with ⟨r, hr, _⟩
    have := List.length_pos.mpr (List.ne_nil_of_mem hr)
    omega
  by_cases hcase : (db.history.map (fun r => r.1)).length ≥ db.retained_history_entries
  · rcases eq_or_lt_of_le hR with hR1 | hR2
    · -- retained_history_entries = 1: the threshold is the minimum cycle,
      -- so the pruning delete removes nothing
      obtain ⟨t, hthresh, hmin⟩ :=
        pruneThreshold_one (db.history.map (fun r => r.1)) (by omega)
      have hthresh' : pruneThreshold (db.history.map (fun r => r.1))
          db.retained_history_entries = some t := by
        rw [← hR1]; exact hthresh
      have heq := add_history_entry_of_ge db c e2 t hcase hthresh'
      have hfil : db.history.filter (fun r => !(decide (r.1 < t))) = db.history := by
        apply List.filter_eq_self.mpr
        intro r hr
        have := hmin r.1 (List.mem_map_of_mem _ hr)
        simp only [Bool.not_eq_true', decide_eq_false_iff_not, not_lt]
        exact this
      have hhist : (db.add_history_entry c e2).2.history =
          historyInsertOrReplace db.history c e2 := by
        rw [heq]; rw [hfil]
      refine ⟨by rw [heq], ?_, ?_⟩
      · rw [LeaseDB.get_history, hhist]
        exact insertOrReplace_find? db.history c e2
      · rw [hhist]
        exact insertOrReplace_length_le db.history c e2 hmem
    · -- retained_history_entries ≥ 2: exactly R − 1 rows survive the prune
      obtain ⟨t, hthresh, hcount⟩ := pruneThreshold_spec (db.history.map (fun r => r.1))
        db.retained_history_entries hnodup (by omega) hcase
      have heq := add_history_entry_of_ge db c e2 t hcase hthresh
      have hsurv : (db.history.filter (fun r => !(decide (r.1 < t)))).length =
          db.retained_history_entries - 1 := by
        rw [survivors_length]; exact hcount
      have hhist : (db.add_history_entry c e2).2.history =
          historyInsertOrReplace (db.history.filter (fun r => !(decide (r.1 < t))))
            c e2 := by rw [heq]
      refine ⟨by rw [heq], ?_, ?_⟩
      · rw [LeaseDB.get_history, hhist]
        exact insertOrReplace_find? _ c e2
      · rw [hhist]
        have hb := insertOrReplace_length_le_succ
          (db.history.filter (fun r => !(decide (r.1 < t)))) c e2
        omega
  · have heq := add_history_entry_of_lt db c e2 hcase
    have hhist : (db.add_history_entry c e2).2.history =
        historyInsertOrReplace db.history c e2 := by rw [heq]
    refine ⟨by rw [heq], ?_, ?_⟩
    · rw [LeaseDB.get_history, hhist]
      exact insertOrReplace_find? db.history c e2
    · rw [hhist]
      exact insertOrReplace_length_le db.history c e2 hmem

theorem claim_C9_witness :
    (((ldbH 10 [(3, 7), (5, 9)]).history.map (fun r => r.1)).Nodup ∧
      3 ∈ (ldbH 10 [(3, 7), (5, 9)]).history.map (fun r => r.1) ∧
      1 ≤ (ldbH 10 [(3, 7), (5, 9)]).retained_history_entries) ∧
    (((ldbH 10 [(3, 7), (5, 9)]).add_history_entry 3 42).1 = none ∧
      ((ldbH 10 [(3, 7), (5, 9)]).add_history_entry 3 42).2.get_history.find?
        (fun r => decide (r.1 = 3)) = some (3, 42) ∧
      ((ldbH 10 [(3, 7), (5, 9)]).add_history_entry 3 42).2.history.length ≤
        (ldbH 10 [(3, 7), (5, 9)]).history.length) :=
  ⟨⟨by decide, by decide, by decide⟩,
   claim_C9 Nat (ldbH 10 [(3, 7), (5, 9)]) 3 42 (by decide) (by decide) (by decide)⟩

theorem claim_C6_witness :
    ((((ldbH 3 [(1, 0), (2, 0), (3, 0)]).history.map (fun r => r.1)).Nodup ∧
      2 ≤ (ldbH 3 [(1, 0), (2, 0), (3, 0)]).retained_history_entries)) ∧
    (((ldbH 3 [(1, 0), (2, 0), (3, 0)]).add_history_entry 4 0).1 = none ∧
      ((ldbH 3 [(1, 0), (2, 0), (3, 0)]).add_history_entry 4 0).2.history.length ≤
        (ldbH 3 [(1, 0), (2, 0), (3, 0)]).retained_history_entries ∧
      ((ldbH 3 [(1, 0), (2, 0), (3, 0)]).retained_history_entries ≤
          (ldbH 3 [(1, 0), (2, 0), (3, 0)]).history.length →
        ∃ t, pruneThreshold
            ((ldbH 3 [(1, 0), (2, 0), (3, 0)]).history.map (fun r => r.1))
            (ldbH 3 [(1, 0), (2, 0), (3, 0)]).retained_history_entries = some t ∧
          ((ldbH 3 [(1, 0), (2, 0), (3, 0)]).history.filter
              (fun r => !(decide (r.1 < t)))).length =
            (ldbH 3 [(1, 0), (2, 0), (3, 0)]).retained_history_entries - 1 ∧
          ((ldbH 3 [(1, 0), (2, 0), (3, 0)]).add_history_entry 4 0).2.history =
            historyInsertOrReplace
              ((ldbH 3 [(1, 0), (2, 0), (3, 0)]).history.filter
                (fun r => !(decide (r.1 < t)))) 4 0)) :=
  ⟨⟨by decide, by decide⟩,
   claim_C6 Nat (ldbH 3 [(1, 0), (2, 0), (3, 0)]) 4 0 (by decide) (by decide)⟩

/-! ### Share and lease upsert lemmas -/

theorem filter_shareKey_singleton {l : List ShareRow} {sh : ShareRow} {si_s : List Nat}
    {n : Nat} (hn : (l.map (fun s => (s.storage_index, s.shnum))).Nodup)
    (hm : sh ∈ l) (hsi : sh.storage_index = si_s) (hshn : sh.shnum = n) :
    l.filter (shareKeyMatch si_s n) = [sh] := by
  induction l with
  | nil => simp at hm
  | cons b tl ih =>
      rw [List.map_cons, List.nodup_cons] at hn
      rw [List.filter_cons]
      rcases List.mem_cons.mp hm with rfl | hm'
      · rw [if_pos (by simp [shareKeyMatch, hsi, hshn])]
        have htl : tl.filter (shareKeyMatch si_s n) = [] := by
          apply List.filter_eq_nil_iff.mpr
          intro x hx hpx
          apply hn.1
          simp only [shareKeyMatch, decide_eq_true_eq] at hpx
          have : (x.storage_index, x.shnum) = (sh.storage_index, sh.shnum) := by
            rw [hpx.1, hpx.2, hsi, hshn]
          rw [← this]
          exact List.mem_map_of_mem _ hx
        rw [htl]
      · have hb : shareKeyMatch si_s n b = false := by
          by_contra hcon
          rw [Bool.not_eq_false] at hcon
          simp only [shareKeyMatch, decide_eq_true_eq] at hcon
          apply hn.1
          have : (b.storage_index, b.shnum) = (sh.storage_index, sh.shnum) := by
            rw [hcon.1, hcon.2, hsi, hshn]
          rw [this]
          exact List.mem_map_of_mem _ hm'
        rw [if_neg (by simp [hb])]
        exact ih hn.2 hm'

theorem filter_map_update_singleton {p : LeaseRow → Bool} {l : List LeaseRow}
    {row : LeaseRow} {f : LeaseRow → LeaseRow}
    (hfilter : l.filter p = [row])
    (hf_other : ∀ x ∈ l, x ≠ row → f x = x)
    (hf_row : p (f row) = true) :
    (l.map f).filter p = [f row] := by
  induction l with
  | nil => simp at hfilter
  | cons b tl ih =>
      rw [List.filter_cons] at hfilter
      rw [List.map_cons, List.filter_cons]
      cases hb : p b with
      | true =>
          rw [if_pos (by simp [hb])] at hfilter
          injection hfilter with h1 h2
          subst h1
          rw [if_pos (by simp [hf_row])]
          have hrest : (tl.map f).filter p = [] := by
            apply List.filter_eq_nil_iff.mpr
            intro y hy
            obtain ⟨x, hx, rfl⟩ := List.mem_map.mp hy
            have hxb : x ≠ b := by
              intro hcon
              have : x ∈ tl.filter p := List.mem_filter.mpr ⟨hx, by rw [hcon]; exact hb⟩
              rw [h2] at this
              simp at this
            rw [hf_other x (List.mem_cons_of_mem b hx) hxb]
            have : x ∉ tl.filter p := by rw [h2]; simp
            intro hpx
            exact this (List.mem_filter.mpr ⟨hx, hpx⟩)
          rw [hrest]
      | false =>
          rw [if_neg (by simp [hb])] at hfilter
          have hrow_tl : row ∈ tl ∧ p row = true := by
            have : row ∈ tl.filter p := by rw [hfilter]; simp
            exact List.mem_filter.mp this
          have hbrow : b ≠ row := by
            intro hcon
            rw [hcon, hrow_tl.2] at hb
            simp at hb
          rw [hf_other b (List.mem_cons_self b tl) hbrow]
          rw [if_neg (by simp [hb])]
          exact ih hfilter (fun x hx => hf_other x (List.mem_cons_of_mem b hx))

theorem upsert_some_spec (ls : List LeaseRow) (nid : Nat) (si_s : List Nat) (n : Nat)
    (a r e : Int)
    (hids : (ls.map (fun l => l.id)).Nodup)
    (hfresh : ∀ l ∈ ls, l.id < nid)
    (htr : (ls.filter (leaseTripleMatch si_s n a)).length ≤ 1) :
    ∃ i ls1 nid1,
      upsertLeaseRow ls nid si_s n (some n) a r e = (none, ls1, nid1) ∧
      ls1.filter (leaseTripleMatch si_s n a) = [⟨i, si_s, n, a, r, e⟩] ∧
      (ls1.map (fun l => l.id)).Nodup ∧
      (∀ l ∈ ls1, l.id < nid1) ∧
      (∀ l ∈ ls1, leaseTripleMatch si_s n a l = false → l ∈ ls) := by
  rw [upsertLeaseRow]
  cases hfind : ls.find? (leaseTripleMatch si_s n a) with
  | none =>
      refine ⟨nid, ls ++ [⟨nid, si_s, n, a, r, e⟩], nid + 1, rfl, ?_, ?_, ?_, ?_⟩
      · rw [List.filter_append]
        rw [List.filter_eq_nil_iff.mpr (fun x hx hpx =>
          (List.find?_eq_none.mp hfind x hx) hpx)]
        rw [List.nil_append, List.filter_cons]
        rw [if_pos (by simp [leaseTripleMatch])]
        rfl
      · rw [List.map_append]
        rw [List.nodup_append]
        refine ⟨hids, by simp, ?_⟩
        intro x hx
        obtain ⟨lx, hlx, rfl⟩ := List.mem_map.mp hx
        have := hfresh lx hlx
        simp only [List.map_cons, List.map_nil, List.mem_singleton]
        omega
      · intro l hl
        rcases List.mem_append.mp hl with hl' | hl'
        · have := hfresh l hl'
          omega
        · rcases List.mem_singleton.mp hl' with rfl
          simp
      · intro l hl _
        rcases List.mem_append.mp hl with hl' | hl'
        · exact hl'
        · rcases List.mem_singleton.mp hl' with rfl
          simp [leaseTripleMatch] at *
  | some row =>
      have hprow : leaseTripleMatch si_s n a row = true := List.find?_some hfind
      have hrowmem : row ∈ ls := List.mem_of_find?_eq_some hfind
      have hfil : ls.filter (leaseTripleMatch si_s n a) = [row] :=
        eq_singleton_of_length_le_one htr
          (List.mem_filter.mpr ⟨hrowmem, hprow⟩)
      have hrowfields : row.storage_index = si_s ∧ row.shnum = n ∧ row.account_id = a := by
        simpa [leaseTripleMatch] using hprow
      have hf_other : ∀ x ∈ ls, x ≠ row →
          (if x.id = row.id then
            { x with renewal_time := r, expiration_time := e } else x) = x := by
        intro x hx hxrow
        rw [if_neg (fun hcon => hxrow (nodupMapInj hids hx hrowmem hcon))]
      have hupd : (if row.id = row.id then
          { row with renewal_time := r, expiration_time := e } else row) =
          ⟨row.id, si_s, n, a, r, e⟩ := by
        rw [if_pos rfl]
        cases row
        simp only at hrowfields ⊢
        rw [hrowfields.1, hrowfields.2.1, hrowfields.2.2]
      refine ⟨row.id, _, nid, rfl, ?_, ?_, ?_, ?_⟩
      · rw [filter_map_update_singleton hfil hf_other
          (by rw [hupd]; simp [leaseTripleMatch])]
        rw [hupd]
      · have : ((ls.map (fun l =>
            if l.id = row.id then { l with renewal_time := r, expiration_time := e }
            else l)).map (fun l => l.id)) = ls.map (fun l => l.id) := by
          rw [List.map_map]
          apply List.map_congr_left
          intro x _
          by_cases h : x.id = row.id <;> simp [h]
        rw [this]
        exact hids
      · intro l hl
        obtain ⟨x, hx, rfl⟩ := List.mem_map.mp hl
        have := hfresh x hx
        by_cases h : x.id = row.id <;> simp [h] <;> omega
      · intro l hl hfalse
        obtain ⟨x, hx, rfl⟩ := List.mem_map.mp hl
        by_cases h : x.id = row.id
        · exfalso
          have hxrow : x = row := nodupMapInj hids hx hrowmem h
          subst hxrow
          rw [if_pos h] at hfalse
          have htrue : leaseTripleMatch si_s n a
              { x with renewal_time := r, expiration_time := e } = true := by
            simp [leaseTripleMatch, hrowfields.1, hrowfields.2.1, hrowfields.2.2]
          rw [htrue] at hfalse
          exact absurd hfalse (by simp)
        · rw [if_neg h]
          exact hx

theorem add_or_renew_spec {ε : Type} (db : LeaseDB ε) (si : List Nat) (n : Nat)
    (sh : ShareRow) (a r e : Int)
    (hkeys : (db.shares.map (fun s => (s.storage_index, s.shnum))).Nodup)
    (hm : sh ∈ db.shares) (hsi : sh.storage_index = si_b2a si) (hshn : sh.shnum = n)
    (hids : (db.leases.map (fun l => l.id)).Nodup)
    (hfresh : ∀ l ∈ db.leases, l.id < db.next_lease_id)
    (htr : (db.leases.filter (leaseTripleMatch (si_b2a si) n a)).length ≤ 1) :
    ∃ i ls1 nid1,
      db.add_or_renew_leases si (some n) a r e =
        (none, { db with dirty := true, leases := ls1, next_lease_id := nid1 }) ∧
      ls1.filter (leaseTripleMatch (si_b2a si) n a) = [⟨i, si_b2a si, n, a, r, e⟩] ∧
      (ls1.map (fun l => l.id)).Nodup ∧
      (∀ l ∈ ls1, l.id < nid1) ∧
      (∀ l ∈ ls1, leaseTripleMatch (si_b2a si) n a l = false → l ∈ db.leases) := by
  obtain ⟨i, ls1, nid1, hup, hfil, hnodup1, hfresh1, hpres⟩ :=
    upsert_some_spec db.leases db.next_lease_id (si_b2a si) n a r e hids hfresh htr
  refine ⟨i, ls1, nid1, ?_, hfil, hnodup1, hfresh1, hpres⟩
  have hrows : (db.shares.filter (shareKeyMatch (si_b2a si) n)).map
      (fun s => (s.storage_index, s.shnum)) = [(si_b2a si, n)] := by
    rw [filter_shareKey_singleton hkeys hm hsi hshn]
    simp [hsi, hshn]
  simp only [LeaseDB.add_or_renew_leases, hrows, renewLoop, hup]

/-- C7: two successive `add_or_renew_leases` calls for the same existing
share and account leave exactly one lease row for that
`(storage_index, shnum, account_id)` triple, carrying the second call's
timestamps — the second call updates rather than inserts, and no
monotonicity is required of the new timestamps (backdating is allowed).
Hypotheses: the share row exists, primary keys and lease ids are unique,
ids are below the AUTOINCREMENT counter, and the triple has at most one
lease initially (the data model's uniqueness invariant). -/
theorem claim_C7 (ε : Type) (db : LeaseDB ε) (si : List Nat) (n : Nat) (sh : ShareRow)
    (a r1 e1 r2 e2 : Int)
    (hkeys : (db.shares.map (fun s => (s.storage_index, s.shnum))).Nodup)
    (hm : sh ∈ db.shares) (hsi : sh.storage_index = si_b2a si) (hshn : sh.shnum = n)
    (hids : (db.leases.map (fun l => l.id)).Nodup)
    (hfresh : ∀ l ∈ db.leases, l.id < db.next_lease_id)
    (htr : (db.leases.filter (leaseTripleMatch (si_b2a si) n a)).length ≤ 1) :
    (db.add_or_renew_leases si (some n) a r1 e1).1 = none ∧
    ((db.add_or_renew_leases si (some n) a r1 e1).2.add_or_renew_leases si (some n)
      a r2 e2).1 = none ∧
    ∃ i, ((db.add_or_renew_leases si (some n) a r1 e1).2.add_or_renew_leases si (some n)
      a r2 e2).2.leases.filter (leaseTripleMatch (si_b2a si) n a) =
        [⟨i, si_b2a si, n, a, r2, e2⟩] := by
  obtain ⟨i1, ls1, nid1, heq1, hfil1, hnodup1, hfresh1, hpres1⟩ :=
    add_or_renew_spec db si n sh a r1 e1 hkeys hm hsi hshn hids hfresh htr
  have htr1 : (ls1.filter (leaseTripleMatch (si_b2a si) n a)).length ≤ 1 := by
    rw [hfil1]
    simp
  obtain ⟨i2, ls2, nid2, heq2, hfil2, hnodup2, hfresh2, hpres2⟩ :=
    add_or_renew_spec { db with dirty := true, leases := ls1, next_lease_id := nid1 }
      si n sh a r2 e2 (by simpa using hkeys) (by simpa using hm) hsi hshn
      (by simpa using hnodup1) (by simpa using hfresh1) (by simpa using htr1)
  refine ⟨by rw [heq1], ?_, i2, ?_⟩
  · simp only [heq1]
    rw [heq2]
  · simp only [heq1, heq2]
    exact hfil2

/-- C10: `add_or_renew_leases` never consults the share's `state` column:
for an existing share row in state GOING or COMING, a call with its key
succeeds, leaves the `shares` table untouched, and upserts the lease for
`(storage_index, shnum, account_id)` with the given timestamps. -/
theorem claim_C10 (ε : Type) (db : LeaseDB ε) (si : List Nat) (n : Nat) (sh : ShareRow)
    (a r e : Int)
    (hstate : sh.state = STATE_GOING ∨ sh.state = STATE_COMING)
    (hkeys : (db.shares.map (fun s => (s.storage_index, s.shnum))).Nodup)
    (hm : sh ∈ db.shares) (hsi : sh.storage_index = si_b2a si) (hshn : sh.shnum = n)
    (hids : (db.leases.map (fun l => l.id)).Nodup)
    (hfresh : ∀ l ∈ db.leases, l.id < db.next_lease_id)
    (htr : (db.leases.filter (leaseTripleMatch (si_b2a si) n a)).length ≤ 1) :
    (db.add_or_renew_leases si (some n) a r e).1 = none ∧
    (db.add_or_renew_leases si (some n) a r e).2.shares = db.shares ∧
    ∃ i, (db.add_or_renew_leases si (some n) a r e).2.leases.filter
      (leaseTripleMatch (si_b2a si) n a) = [⟨i, si_b2a si, n, a, r, e⟩] := by
  obtain ⟨i1, ls1, nid1, heq1, hfil1, hnodup1, hfresh1, hpres1⟩ :=
    add_or_renew_spec db si n sh a r e hkeys hm hsi hshn hids hfresh htr
  refine ⟨by rw [heq1], by rw [heq1], i1, ?_⟩
  simp only [heq1]
  exact hfil1

theorem claim_C7_witness :
    ((dbStable.shares.map (fun s => (s.storage_index, s.shnum))).Nodup ∧
      rowStable ∈ dbStable.shares ∧ rowStable.storage_index = si_b2a si16 ∧
      rowStable.shnum = 0 ∧
      (dbStable.leases.map (fun l => l.id)).Nodup ∧
      (∀ l ∈ dbStable.leases, l.id < dbStable.next_lease_id) ∧
      (dbStable.leases.filter (leaseTripleMatch (si_b2a si16) 0 7)).length ≤ 1) ∧
    ((dbStable.add_or_renew_leases si16 (some 0) 7 1000 2000).1 = none ∧
      ((dbStable.add_or_renew_leases si16 (some 0) 7 1000 2000).2.add_or_renew_leases
        si16 (some 0) 7 3000 4000).1 = none ∧
      ∃ i, ((dbStable.add_or_renew_leases si16 (some 0) 7 1000
          2000).2.add_or_renew_leases si16 (some 0) 7 3000 4000).2.leases.filter
            (leaseTripleMatch (si_b2a si16) 0 7) =
          [⟨i, si_b2a si16, 0, 7, 3000, 4000⟩]) :=
  ⟨⟨by decide, by decide, by decide, by decide, by decide, by decide, by decide⟩,
   claim_C7 Nat dbStable si16 0 rowStable 7 1000 2000 3000 4000 (by decide) (by decide)
     (by decide) (by decide) (by decide) (by decide) (by decide)⟩

theorem claim_C10_witness :
    ((rowGoing.state = STATE_GOING ∨ rowGoing.state = STATE_COMING) ∧
      (dbGoing.shares.map (fun s => (s.storage_index, s.shnum))).Nodup ∧
      rowGoing ∈ dbGoing.shares ∧ rowGoing.storage_index = si_b2a si16 ∧
      rowGoing.shnum = 0 ∧
      (dbGoing.leases.map (fun l => l.id)).Nodup ∧
      (∀ l ∈ dbGoing.leases, l.id < dbGoing.next_lease_id) ∧
      (dbGoing.leases.filter (leaseTripleMatch (si_b2a si16) 0 7)).length ≤ 1) ∧
    ((dbGoing.add_or_renew_leases si16 (some 0) 7 50 60).1 = none ∧
      (dbGoing.add_or_renew_leases si16 (some 0) 7 50 60).2.shares = dbGoing.shares ∧
      ∃ i, (dbGoing.add_or_renew_leases si16 (some 0) 7 50 60).2.leases.filter
        (leaseTripleMatch (si_b2a si16) 0 7) = [⟨i, si_b2a si16, 0, 7, 50, 60⟩]) :=
  ⟨⟨by decide, by decide, by decide, by decide, by decide, by decide, by decide,
    by decide⟩,
   claim_C10 Nat dbGoing si16 0 rowGoing 7 50 60 (by decide) (by decide) (by decide)
     (by decide) (by decide) (by decide) (by decide) (by decide)⟩

/-! ### State-machine lemmas (C5) -/

theorem shares_add_starter_lease {ε : Type} (db : LeaseDB ε) (si : List Nat) (n : Nat)
    (now : Int) : (db.add_starter_lease si n now).shares = db.shares := rfl

theorem shares_commit {ε : Type} (db : LeaseDB ε) (a : Bool) :
    (db.commit a).shares = db.shares := by
  rw [LeaseDB.commit]
  split <;> rfl

theorem shares_remove_expired {ε : Type} (db : LeaseDB ε) (pol : ExpirationPolicy) :
    (db.remove_expired_leases pol).2.shares = db.shares := rfl

theorem shares_add_or_renew {ε : Type} (db : LeaseDB ε) (si : List Nat)
    (sh : Option Nat) (o r e : Int) :
    (db.add_or_renew_leases si sh o r e).2.shares = db.shares := by
  cases sh with
  | none => rfl
  | some n =>
      simp only [LeaseDB.add_or_renew_leases]
      split <;> rfl

theorem shares_add_history {ε : Type} (db : LeaseDB ε) (c : Int) (ent : ε) :
    (db.add_history_entry c ent).2.shares = db.shares := by
  rw [LeaseDB.add_history_entry]
  split
  · split <;> rfl
  · rfl

theorem lookup_shares_eq {ε₁ ε₂ : Type} {db1 : LeaseDB ε₁} {db2 : LeaseDB ε₂}
    (h : db1.shares = db2.shares) (k : List Nat) (n : Nat) :
    db1.lookupShare k n = db2.lookupShare k n := by
  rw [LeaseDB.lookupShare, LeaseDB.lookupShare, h]

theorem lookup_add_new_share {ε : Type} (db : LeaseDB ε) (si : List Nat) (m : Nat)
    (u : Int) (st : Nat) (k : List Nat) (n : Nat) (r : ShareRow)
    (hr : db.lookupShare k n = some r) :
    (db.add_new_share si m u st).2.lookupShare k n = some r := by
  rw [LeaseDB.add_new_share]
  by_cases hg : ({ db with dirty := true } : LeaseDB ε).shares.any
      (shareKeyMatch (si_b2a si) m) = true
  · simp only [if_pos hg]
    exact hr
  · simp only [if_neg hg]
    rw [LeaseDB.lookupShare]
    exact find?_append_left hr

theorem keyMatch_update_stable (si_s : List Nat) (m : Nat) (u : Int)
    (bk : Option (List Nat)) (k : List Nat) (n : Nat) (s : ShareRow) :
    shareKeyMatch k n
      (if shareKeyMatch si_s m s && decide (s.state ≠ STATE_GOING) then
        { s with state := STATE_STABLE, used_space := u, backend_key := bk }
      else s) = shareKeyMatch k n s := by
  by_cases h : (shareKeyMatch si_s m s && decide (s.state ≠ STATE_GOING)) = true
  · rw [if_pos h]
    simp [shareKeyMatch]
  · rw [if_neg h]

theorem keyMatch_update_going (si_s : List Nat) (m : Nat) (k : List Nat) (n : Nat)
    (s : ShareRow) :
    shareKeyMatch k n
      (if shareKeyMatch si_s m s && decide (s.state ≠ STATE_COMING) then
        { s with state := STATE_GOING }
      else s) = shareKeyMatch k n s := by
  by_cases h : (shareKeyMatch si_s m s && decide (s.state ≠ STATE_COMING)) = true
  · rw [if_pos h]
    simp [shareKeyMatch]
  · rw [if_neg h]

theorem keyMatch_update_space (si_s : List Nat) (m : Nat) (u : Int) (k : List Nat)
    (n : Nat) (s : ShareRow) :
    shareKeyMatch k n
      (if shareKeyMatch si_s m s then { s with used_space := u } else s) =
      shareKeyMatch k n s := by
  by_cases h : shareKeyMatch si_s m s = true
  · rw [if_pos h]
    simp [shareKeyMatch]
  · rw [if_neg h]

theorem lookup_mark_stable {ε : Type} (db : LeaseDB ε) (si : List Nat) (m : Nat)
    (u : Int) (bk : Option (List Nat)) (k : List Nat) (n : Nat) (r : ShareRow)
    (hr : db.lookupShare k n = some r) :
    (db.mark_share_as_stable si m u bk).2.lookupShare k n =
      some (if shareKeyMatch (si_b2a si) m r && decide (r.state ≠ STATE_GOING) then
        { r with state := STATE_STABLE, used_space := u, backend_key := bk }
      else r) := by
  rw [LeaseDB.mark_share_as_stable]
  have hsh : ∀ (x : Option DBErr),
      ((x, { db with dirty := true, shares := db.shares.map (fun s =>
        if shareKeyMatch (si_b2a si) m s && decide (s.state ≠ STATE_GOING) then
          { s with state := STATE_STABLE, used_space := u, backend_key := bk }
        else s) }) : Option DBErr × LeaseDB ε).2.lookupShare k n =
      some (if shareKeyMatch (si_b2a si) m r && decide (r.state ≠ STATE_GOING) then
        { r with state := STATE_STABLE, used_space := u, backend_key := bk }
      else r) := by
    intro x
    rw [LeaseDB.lookupShare]
    rw [find?_map_pred (keyMatch_update_stable (si_b2a si) m u bk k n)]
    rw [LeaseDB.lookupShare] at hr
    rw [hr]
    rfl
  split <;> exact hsh _

theorem lookup_mark_going {ε : Type} (db : LeaseDB ε) (si : List Nat) (m : Nat)
    (k : List Nat) (n : Nat) (r : ShareRow)
    (hr : db.lookupShare k n = some r) :
    (db.mark_share_as_going si m).2.lookupShare k n =
      some (if shareKeyMatch (si_b2a si) m r && decide (r.state ≠ STATE_COMING) then
        { r with state := STATE_GOING } else r) := by
  rw [LeaseDB.mark_share_as_going]
  have hsh : ∀ (x : Option DBErr),
      ((x, { db with dirty := true, shares := db.shares.map (fun s =>
        if shareKeyMatch (si_b2a si) m s && decide (s.state ≠ STATE_COMING) then
          { s with state := STATE_GOING } else s) }) :
          Option DBErr × LeaseDB ε).2.lookupShare k n =
      some (if shareKeyMatch (si_b2a si) m r && decide (r.state ≠ STATE_COMING) then
        { r with state := STATE_GOING } else r) := by
    intro x
    rw [LeaseDB.lookupShare]
    rw [find?_map_pred (keyMatch_update_going (si_b2a si) m k n)]
    rw [LeaseDB.lookupShare] at hr
    rw [hr]
    rfl
  split <;> exact hsh _

theorem lookup_change_space {ε : Type} (db : LeaseDB ε) (si : List Nat) (m : Nat)
    (u : Int) (k : List Nat) (n : Nat) (r : ShareRow)
    (hr : db.lookupShare k n = some r) :
    (db.change_share_space si m u).2.lookupShare k n =
      some (if shareKeyMatch (si_b2a si) m r then { r with used_space := u } else r) := by
  rw [LeaseDB.change_share_space]
  have hsh : ∀ (x : Option DBErr),
      ((x, { db with dirty := true, shares := db.shares.map (fun s =>
        if shareKeyMatch (si_b2a si) m s then { s with used_space := u } else s) }) :
          Option DBErr × LeaseDB ε).2.lookupShare k n =
      some (if shareKeyMatch (si_b2a si) m r then { r with used_space := u } else r) := by
    intro x
    rw [LeaseDB.lookupShare]
    rw [find?_map_pred (keyMatch_update_space (si_b2a si) m u k n)]
    rw [LeaseDB.lookupShare] at hr
    rw [hr]
    rfl
  split <;> exact hsh _

theorem lookup_remove_deleted {ε : Type} (db : LeaseDB ε) (si : List Nat) (m : Nat)
    (k : List Nat) (n : Nat) (r r' : ShareRow)
    (hr : db.lookupShare k n = some r)
    (hr' : (db.remove_deleted_share si m).lookupShare k n = some r') :
    r' = r := by
  rw [LeaseDB.remove_deleted_share, LeaseDB.lookupShare] at hr'
  by_cases heq : si_b2a si = k ∧ m = n
  · exfalso
    rw [find?_filter_none (fun s hs => by
      simp only [shareKeyMatch, decide_eq_true_eq] at hs
      simp [shareKeyMatch, hs.1, hs.2, heq.1, heq.2])] at hr'
    exact Option.noConfusion hr'
  · rw [find?_filter_of_imp (fun s hs => by
      simp only [shareKeyMatch, decide_eq_true_eq] at hs
      simp only [Bool.not_eq_true']
      apply decide_eq_false
      intro hcon
      exact heq ⟨by rw [← hcon.1, hs.1], by rw [← hcon.2, hs.2]⟩)] at hr'
    rw [LeaseDB.lookupShare] at hr
    rw [hr] at hr'
    exact (Option.some_inj.mp hr').symm

/-- Single-step state-machine fact: across any one LeaseDB call, a share
row that exists before and after never moves GOING→(anything else) and
never moves into COMING from another state. -/
theorem step_state {ε : Type} (db : LeaseDB ε) (op : LDBOp ε) (k : List Nat) (n : Nat)
    (r r' : ShareRow)
    (hr : db.lookupShare k n = some r)
    (hr' : (applyOp db op).lookupShare k n = some r') :
    (r.state = STATE_GOING → r'.state = STATE_GOING) ∧
    (r'.state = STATE_COMING → r.state = STATE_COMING) := by
  cases op with
  | add_new_share si m u st =>
      simp only [applyOp] at hr'
      rw [lookup_add_new_share db si m u st k n r hr] at hr'
      obtain rfl := Option.some_inj.mp hr'
      exact ⟨fun h => h, fun h => h⟩
  | add_starter_lease si m now =>
      simp only [applyOp] at hr'
      rw [lookup_shares_eq (shares_add_starter_lease db si m now) k n, hr] at hr'
      obtain rfl := Option.some_inj.mp hr'
      exact ⟨fun h => h, fun h => h⟩
  | mark_share_as_stable si m u bk =>
      simp only [applyOp] at hr'
      rw [lookup_mark_stable db si m u bk k n r hr] at hr'
      have hval := Option.some_inj.mp hr'
      constructor
      · intro hgo
        rw [← hval, if_neg (by simp [hgo])]
        exact hgo
      · intro hcom
        by_cases hc : (shareKeyMatch (si_b2a si) m r && decide (r.state ≠ STATE_GOING))
            = true
        · rw [← hval, if_pos hc] at hcom
          simp only [STATE_STABLE, STATE_COMING] at hcom
          exact absurd hcom (by norm_num)
        · rw [← hval, if_neg hc] at hcom
          exact hcom
  | mark_share_as_going si m =>
      simp only [applyOp] at hr'
      rw [lookup_mark_going db si m k n r hr] at hr'
      have hval := Option.some_inj.mp hr'
      constructor
      · intro hgo
        by_cases hc : (shareKeyMatch (si_b2a si) m r && decide (r.state ≠ STATE_COMING))
            = true
        · rw [← hval, if_pos hc]
        · rw [← hval, if_neg hc]
          exact hgo
      · intro hcom
        by_cases hc : (shareKeyMatch (si_b2a si) m r && decide (r.state ≠ STATE_COMING))
            = true
        · rw [← hval, if_pos hc] at hcom
          simp only [STATE_GOING, STATE_COMING] at hcom
          exact absurd hcom (by norm_num)
        · rw [← hval, if_neg hc] at hcom
          exact hcom
  | remove_deleted_share si m =>
      simp only [applyOp] at hr'
      obtain rfl := lookup_remove_deleted db si m k n r r' hr hr'
      exact ⟨fun h => h, fun h => h⟩
  | change_share_space si m u =>
      simp only [applyOp] at hr'
      rw [lookup_change_space db si m u k n r hr] at hr'
      have hval := Option.some_inj.mp hr'
      have hst : r'.state = r.state := by
        rw [← hval]
        by_cases hc : shareKeyMatch (si_b2a si) m r = true
        · rw [if_pos hc]
        · rw [if_neg hc]
      rw [hst]
      exact ⟨fun h => h, fun h => h⟩
  | add_or_renew_leases si sh o rt et =>
      simp only [applyOp] at hr'
      rw [lookup_shares_eq (shares_add_or_renew db si sh o rt et) k n, hr] at hr'
      obtain rfl := Option.some_inj.mp hr'
      exact ⟨fun h => h, fun h => h⟩
  | add_history_entry c ent =>
      simp only [applyOp] at hr'
      rw [lookup_shares_eq (shares_add_history db c ent) k n, hr] at hr'
      obtain rfl := Option.some_inj.mp hr'
      exact ⟨fun h => h, fun h => h⟩
  | remove_expired_leases pol =>
      simp only [applyOp] at hr'
      rw [lookup_shares_eq (shares_remove_expired db pol) k n, hr] at hr'
      obtain rfl := Option.some_inj.mp hr'
      exact ⟨fun h => h, fun h => h⟩
  | commit a =>
      simp only [applyOp] at hr'
      rw [lookup_shares_eq (shares_commit db a) k n, hr] at hr'
      obtain rfl := Option.some_inj.mp hr'
      exact ⟨fun h => h, fun h => h⟩

theorem applyOps_nil {ε : Type} (db : LeaseDB ε) : applyOps db [] = db := rfl

theorem applyOps_cons {ε : Type} (db : LeaseDB ε) (op : LDBOp ε) (ops : List (LDBOp ε)) :
    applyOps db (op :: ops) = applyOps (applyOp db op) ops := rfl

/-- While a share row stays present, GOING is absorbing across any
sequence of LeaseDB calls. -/
theorem going_persists {ε : Type} (k : List Nat) (n : Nat) (ops : List (LDBOp ε)) :
    ∀ (db : LeaseDB ε) (r : ShareRow),
      db.lookupShare k n = some r → r.state = STATE_GOING →
      (∀ i, i ≤ ops.length →
        ((applyOps db (ops.take i)).lookupShare k n).isSome = true) →
      ∃ r', (applyOps db ops).lookupShare k n = some r' ∧ r'.state = STATE_GOING := by
  induction ops with
  | nil =>
      intro db r hr hgo _
      exact ⟨r, hr, hgo⟩
  | cons op rest ih =>
      intro db r hr hgo hpres
      have h1 : ((applyOp db op).lookupShare k n).isSome = true := by
        have := hpres 1 (by simp)
        rwa [List.take_succ_cons, List.take_zero, applyOps_cons, applyOps_nil] at this
      obtain ⟨r1, hr1⟩ := Option.isSome_iff_exists.mp h1
      have hgo1 := (step_state db op k n r r1 hr hr1).1 hgo
      rw [applyOps_cons]
      exact ih (applyOp db op) r1 hr1 hgo1 (fun i hi => by
        have := hpres (i + 1) (by simpa using hi)
        rwa [List.take_succ_cons, applyOps_cons] at this)

/-- While a share row stays present, a row observed in COMING was already
in COMING at the start of the sequence. -/
theorem coming_origin {ε : Type} (k : List Nat) (n : Nat) (ops : List (LDBOp ε)) :
    ∀ (db : LeaseDB ε) (r r' : ShareRow),
      db.lookupShare k n = some r →
      (∀ i, i ≤ ops.length →
        ((applyOps db (ops.take i)).lookupShare k n).isSome = true) →
      (applyOps db ops).lookupShare k n = some r' → r'.state = STATE_COMING →
      r.state = STATE_COMING := by
  induction ops with
  | nil =>
      intro db r r' hr _ hr' hcom
      rw [applyOps_nil, hr] at hr'
      obtain rfl := Option.some_inj.mp hr'
      exact hcom
  | cons op rest ih =>
      intro db r r' hr hpres hr' hcom
      have h1 : ((applyOp db op).lookupShare k n).isSome = true := by
        have := hpres 1 (by simp)
        rwa [List.take_succ_cons, List.take_zero, applyOps_cons, applyOps_nil] at this
      obtain ⟨r1, hr1⟩ := Option.isSome_iff_exists.mp h1
      rw [applyOps_cons] at hr'
      have hcom1 : r1.state = STATE_COMING :=
        ih (applyOp db op) r1 r' hr1 (fun i hi => by
          have := hpres (i + 1) (by simpa using hi)
          rwa [List.take_succ_cons, applyOps_cons] at this) hr' hcom
      exact (step_state db op k n r r1 hr hr1).2 hcom1

/-- `mark_share_as_stable` on a share in state GOING updates no row: it
raises `NonExistentShareError` and leaves both tables unchanged. -/
theorem mark_stable_on_going {ε : Type} (db : LeaseDB ε) (si : List Nat) (n : Nat)
    (u : Int) (bk : Option (List Nat)) (r : ShareRow)
    (hkeys : (db.shares.map (fun s => (s.storage_index, s.shnum))).Nodup)
    (hr : db.lookupShare (si_b2a si) n = some r) (hgo : r.state = STATE_GOING) :
    (db.mark_share_as_stable si n u bk).1 =
      some (DBErr.nonExistentShare (si_b2a si) n) ∧
    (db.mark_share_as_stable si n u bk).2.shares = db.shares ∧
    (db.mark_share_as_stable si n u bk).2.leases = db.leases := by
  have hrmem : r ∈ db.shares := List.mem_of_find?_eq_some hr
  have hrkey : shareKeyMatch (si_b2a si) n r = true := List.find?_some hr
  have hrfields : r.storage_index = si_b2a si ∧ r.shnum = n := by
    simpa [shareKeyMatch] using hrkey
  have hcond : ∀ s ∈ db.shares,
      (shareKeyMatch (si_b2a si) n s && decide (s.state ≠ STATE_GOING)) = false := by
    intro s hs
    by_cases hkm : shareKeyMatch (si_b2a si) n s = true
    · have hsf : s.storage_index = si_b2a si ∧ s.shnum = n := by
        simpa [shareKeyMatch] using hkm
      have hsr : s = r := nodupMapInj hkeys hs hrmem (by
        rw [hsf.1, hsf.2, hrfields.1, hrfields.2])
      rw [hsr]
      simp [hrkey, hgo]
    · simp only [Bool.not_eq_true] at hkm
      rw [hkm]
      simp
  have hcnt : db.shares.countP
      (fun s => shareKeyMatch (si_b2a si) n s && decide (s.state ≠ STATE_GOING)) = 0 :=
    List.countP_eq_zero.mpr (fun s hs => by rw [hcond s hs]; simp)
  have hmapid : db.shares.map (fun s =>
      if shareKeyMatch (si_b2a si) n s && decide (s.state ≠ STATE_GOING) then
        { s with state := STATE_STABLE, used_space := u, backend_key := bk }
      else s) = db.shares :=
    map_eq_self_of (fun s hs => by rw [if_neg (by rw [hcond s hs]; simp)])
  refine ⟨?_, ?_, ?_⟩ <;>
    simp only [LeaseDB.mark_share_as_stable, hcnt, hmapid] <;>
    norm_num

/-- `mark_share_as_going` on a share in state COMING updates no row: it
raises `NonExistentShareError` and leaves both tables unchanged. -/
theorem mark_going_on_coming {ε : Type} (db : LeaseDB ε) (si : List Nat) (n : Nat)
    (r : ShareRow)
    (hkeys : (db.shares.map (fun s => (s.storage_index, s.shnum))).Nodup)
    (hr : db.lookupShare (si_b2a si) n = some r) (hcom : r.state = STATE_COMING) :
    (db.mark_share_as_going si n).1 = some (DBErr.nonExistentShare (si_b2a si) n) ∧
    (db.mark_share_as_going si n).2.shares = db.shares ∧
    (db.mark_share_as_going si n).2.leases = db.leases := by
  have hrmem : r ∈ db.shares := List.mem_of_find?_eq_some hr
  have hrkey : shareKeyMatch (si_b2a si) n r = true := List.find?_some hr
  have hrfields : r.storage_index = si_b2a si ∧ r.shnum = n := by
    simpa [shareKeyMatch] using hrkey
  have hcond : ∀ s ∈ db.shares,
      (shareKeyMatch (si_b2a si) n s && decide (s.state ≠ STATE_COMING)) = false := by
    intro s hs
    by_cases hkm : shareKeyMatch (si_b2a si) n s = true
    · have hsf : s.storage_index = si_b2a si ∧ s.shnum = n := by
        simpa [shareKeyMatch] using hkm
      have hsr : s = r := nodupMapInj hkeys hs hrmem (by
        rw [hsf.1, hsf.2, hrfields.1, hrfields.2])
      rw [hsr]
      simp [hrkey, hcom]
    · simp only [Bool.not_eq_true] at hkm
      rw [hkm]
      simp
  have hcnt : db.shares.countP
      (fun s => shareKeyMatch (si_b2a si) n s && decide (s.state ≠ STATE_COMING)) = 0 :=
    List.countP_eq_zero.mpr (fun s hs => by rw [hcond s hs]; simp)
  have hmapid : db.shares.map (fun s =>
      if shareKeyMatch (si_b2a si) n s && decide (s.state ≠ STATE_COMING) then
        { s with state := STATE_GOING }
      else s) = db.shares :=
    map_eq_self_of (fun s hs => by rw [if_neg (by rw [hcond s hs]; simp)])
  refine ⟨?_, ?_, ?_⟩ <;>
    simp only [LeaseDB.mark_share_as_going, hcnt, hmapid] <;>
    norm_num

/-- C5: share lifecycle invariants.  For a share row present in the
database (key `(k, n)`, unique primary keys), across any sequence of
LeaseDB calls during which the row stays present: (1) a row in GOING stays
in GOING (so it is never subsequently STABLE); (2) a row in STABLE is
never observed in COMING; (3) `mark_share_as_stable` on a GOING row
updates nothing and raises `NonExistentShareError`; (4)
`mark_share_as_going` on a COMING row updates nothing and raises
`NonExistentShareError`. -/
theorem claim_C5 (ε : Type) (db : LeaseDB ε) (k : List Nat) (n : Nat) (r : ShareRow)
    (ops : List (LDBOp ε))
    (hkeys : (db.shares.map (fun s => (s.storage_index, s.shnum))).Nodup)
    (hr : db.lookupShare k n = some r)
    (hpres : ∀ i, i ≤ ops.length →
      ((applyOps db (ops.take i)).lookupShare k n).isSome = true) :
    (r.state = STATE_GOING →
      ∃ r', (applyOps db ops).lookupShare k n = some r' ∧ r'.state = STATE_GOING) ∧
    (r.state = STATE_STABLE →
      ∀ r', (applyOps db ops).lookupShare k n = some r' → r'.state ≠ STATE_COMING) ∧
    (r.state = STATE_GOING → ∀ si u bk, si_b2a si = k →
      (db.mark_share_as_stable si n u bk).1 = some (DBErr.nonExistentShare k n) ∧
      (db.mark_share_as_stable si n u bk).2.shares = db.shares ∧
      (db.mark_share_as_stable si n u bk).2.leases = db.leases) ∧
    (r.state = STATE_COMING → ∀ si, si_b2a si = k →
      (db.mark_share_as_going si n).1 = some (DBErr.nonExistentShare k n) ∧
      (db.mark_share_as_going si n).2.shares = db.shares ∧
      (db.mark_share_as_going si n).2.leases = db.leases) := by
  refine ⟨?_, ?_, ?_, ?_⟩
  · intro hgo
    exact going_persists k n ops db r hr hgo hpres
  · intro hst r' hr' hcom
    have := coming_origin k n ops db r r' hr hpres hr' hcom
    rw [hst] at this
    simp only [STATE_STABLE, STATE_COMING] at this
    exact absurd this (by norm_num)
  · intro hgo si u bk hsik
    subst hsik
    exact mark_stable_on_going db si n u bk r hkeys hr hgo
  · intro hcom si hsik
    subst hsik
    exact mark_going_on_coming db si n r hkeys hr hcom

theorem claim_C5_witness :
    ((dbGoing.shares.map (fun s => (s.storage_index, s.shnum))).Nodup ∧
      dbGoing.lookupShare si26 0 = some rowGoing ∧
      (∀ i, i ≤ ([LDBOp.change_share_space si16 0 7] : List (LDBOp Nat)).length →
        ((applyOps dbGoing (([LDBOp.change_share_space si16 0 7] :
          List (LDBOp Nat)).take i)).lookupShare si26 0).isSome = true)) ∧
    ((rowGoing.state = STATE_GOING →
      ∃ r', (applyOps dbGoing [LDBOp.change_share_space si16 0 7]).lookupShare si26 0 =
        some r' ∧ r'.state = STATE_GOING) ∧
    (rowGoing.state = STATE_STABLE →
      ∀ r', (applyOps dbGoing [LDBOp.change_share_space si16 0 7]).lookupShare si26 0 =
        some r' → r'.state ≠ STATE_COMING) ∧
    (rowGoing.state = STATE_GOING → ∀ si u bk, si_b2a si = si26 →
      (dbGoing.mark_share_as_stable si 0 u bk).1 =
        some (DBErr.nonExistentShare si26 0) ∧
      (dbGoing.mark_share_as_stable si 0 u bk).2.shares = dbGoing.shares ∧
      (dbGoing.mark_share_as_stable si 0 u bk).2.leases = dbGoing.leases) ∧
    (rowGoing.state = STATE_COMING → ∀ si, si_b2a si = si26 →
      (dbGoing.mark_share_as_going si 0).1 = some (DBErr.nonExistentShare si26 0) ∧
      (dbGoing.mark_share_as_going si 0).2.shares = dbGoing.shares ∧
      (dbGoing.mark_share_as_going si 0).2.leases = dbGoing.leases)) :=
  ⟨⟨by decide, by decide, by decide⟩,
   claim_C5 Nat dbGoing si26 0 rowGoing [LDBOp.change_share_space si16 0 7]
     (by decide) (by decide) (by decide)⟩
